import Mathlib

/-!
# GRNN gating combiner (`GRNNGATE.CPP`)

A shallow embedding of the class `GRNNgate` and of the optimisation
criterion `criter`.

* `double` is read as an ordered field `α` (the theorems use `ℝ`), and the
  library function `exp` of `<math.h>` is the parameter `ex` (the theorems
  use `Real.exp`).  Every definition is therefore computable, e.g. on `ℚ`.
* A `double *` is a function `Nat → α` from offsets to cells; a store
  `p[i] = v` is `Function.update p i v`.
* The dimensions `ncases`, `ngates`, `nmodels` are non-negative `int`s and
  are kept as `Nat`; the exclusion arguments of `trial` can be negative and
  are `Int`.  All values are assumed to lie in the range of `int`.
* A loop `for (i=0 ; i<n ; i++) body` is a left fold of `body` over
  `List.range n`.
-/

namespace GRNNgate

/-- The private data of the class `GRNNgate`. -/
structure State (α : Type) where
  /-- Number of cases -/
  ncases : Nat
  /-- Number of gate variables -/
  ngates : Nat
  /-- Number of models -/
  nmodels : Nat
  /-- Packed copy of the training set -/
  tset : Nat → α
  /-- Learned sigma weights -/
  sigma : Nat → α
  /-- Scratch vector used in `trial` -/
  errvals : Nat → α

variable {α : Type} [LinearOrderedField α]

/-! ## Constructor: packing of the training set -/

/-- The call `memcpy ( dst + off , src , n * sizeof(double) )`. -/
def memcpy (dst : Nat → α) (off : Nat) (src : Nat → α) (n : Nat) : Nat → α :=
  fun k => if off ≤ k ∧ k < off + n then src (k - off) else dst k

/-- One pass of the copy loop of the constructor, for case `i`; the state is
the buffer `tset` and the offset of `case_ptr` in it. -/
def packStep (ngates nmodels : Nat) (gates contenders trueval : Nat → α)
    (st : (Nat → α) × Nat) (i : Nat) : (Nat → α) × Nat :=
  let tset := st.1
  let case_ptr := st.2
  let tset := memcpy tset case_ptr (fun k => gates (i * ngates + k)) ngates
  let case_ptr := case_ptr + ngates
  let tset := memcpy tset case_ptr (fun k => contenders (i * nmodels + k)) nmodels
  let case_ptr := case_ptr + nmodels
  let tset := Function.update tset case_ptr (trueval i)
  (tset, case_ptr + 1)

/-- The copy loop of the constructor; `raw` is the content of the freshly
allocated buffer. -/
def packTset (n ngates nmodels : Nat) (gates contenders trueval : Nat → α)
    (raw : Nat → α) : Nat → α :=
  ((List.range n).foldl (packStep ngates nmodels gates contenders trueval) (raw, 0)).1

/-! ## `GRNNgate::trial` -/

/-- The circular index distance computed at the top of the case loop:
`idist = abs (i_exclude - icase)`, replaced by `ncases - idist` when that is
smaller. -/
def idistOf (ncases : Nat) (i_exclude : Int) (icase : Nat) : Int :=
  let idist := |i_exclude - (icase : Int)|
  if (ncases : Int) - idist < idist then (ncases : Int) - idist else idist

/-- The test `idist <= n_exclude` that makes the case loop `continue`. -/
def caseSkipped (ncases : Nat) (i_exclude n_exclude : Int) (icase : Nat) : Bool :=
  decide (idistOf ncases i_exclude icase ≤ n_exclude)

/-- The first loop: `errvals[imodel] = 0.0`. -/
def zeroErrvals (nmodels : Nat) (errvals : Nat → α) : Nat → α :=
  (List.range nmodels).foldl (fun ev imodel => Function.update ev imodel 0) errvals

/-- The gate loop: the sum of the squared sigma-scaled differences. -/
def gateDist (ngates : Nat) (sigma gates dptr : Nat → α) : α :=
  (List.range ngates).foldl
    (fun dist ivar =>
      let diff := gates ivar - dptr ivar
      let diff := diff / sigma ivar
      dist + diff * diff)
    0

/-- The contender loop: `errvals[ivar] += dist * err * err`. -/
def accumulate (nmodels : Nat) (dist : α) (dptr : Nat → α) (outval : α)
    (errvals : Nat → α) : Nat → α :=
  (List.range nmodels).foldl
    (fun ev ivar =>
      let err := dptr ivar - outval
      Function.update ev ivar (ev ivar + dist * err * err))
    errvals

/-- The body of the loop over the training cases. -/
def caseStep (ex : α → α) (s : State α) (gates : Nat → α)
    (i_exclude n_exclude : Int) (errvals : Nat → α) (icase : Nat) : Nat → α :=
  if caseSkipped s.ncases i_exclude n_exclude icase then errvals
  else
    let size := s.ngates + s.nmodels + 1
    let dptr : Nat → α := fun k => s.tset (size * icase + k)
    let dist := gateDist s.ngates s.sigma gates dptr
    let dist := ex (-dist)
    let dptr : Nat → α := fun k => dptr (s.ngates + k)
    let outval := dptr s.nmodels
    accumulate s.nmodels dist dptr outval errvals

/-- The loop over the training cases. -/
def caseLoop (ex : α → α) (s : State α) (gates : Nat → α)
    (i_exclude n_exclude : Int) (errvals : Nat → α) : Nat → α :=
  (List.range s.ncases).foldl (caseStep ex s gates i_exclude n_exclude) errvals

/-- The body of the loop that converts the squared errors to unnormalised
weights; the state is `errvals` and `psum`. -/
def invertStep (st : (Nat → α) × α) (ivar : Nat) : (Nat → α) × α :=
  let ev := st.1
  let ev :=
    if ev ivar > 1e-30 then Function.update ev ivar (1 / ev ivar)
    else Function.update ev ivar 1e30
  (ev, st.2 + ev ivar)

/-- The loop that converts the squared errors to unnormalised weights. -/
def invertLoop (nmodels : Nat) (errvals : Nat → α) : (Nat → α) × α :=
  (List.range nmodels).foldl invertStep (errvals, 0)

/-- The loop `errvals[ivar] /= psum`. -/
def normalize (nmodels : Nat) (psum : α) (errvals : Nat → α) : Nat → α :=
  (List.range nmodels).foldl (fun ev ivar => Function.update ev ivar (ev ivar / psum)) errvals

/-- The loop `out += errvals[ivar] * contenders[ivar]`. -/
def weightedOut (nmodels : Nat) (errvals contenders : Nat → α) : α :=
  (List.range nmodels).foldl (fun out ivar => out + errvals ivar * contenders ivar) 0

/-- The content of `errvals` when `GRNNgate::trial` returns. -/
def trialErrvals (ex : α → α) (s : State α) (gates : Nat → α)
    (i_exclude n_exclude : Int) : Nat → α :=
  let ev := zeroErrvals s.nmodels s.errvals
  let ev := caseLoop ex s gates i_exclude n_exclude ev
  let st := invertLoop s.nmodels ev
  normalize s.nmodels st.2 st.1

/-- The method `GRNNgate::trial`: the returned value and the object after the
call. -/
def trial (ex : α → α) (s : State α) (gates contenders : Nat → α)
    (i_exclude n_exclude : Int) : α × State α :=
  let ev := trialErrvals ex s gates i_exclude n_exclude
  (weightedOut s.nmodels ev contenders, { s with errvals := ev })

/-! ## `criter` -/

/-- The body of the loop of `criter` that sets the sigmas; the state is
`sigma` and `penalty`. -/
def sigmaStep (ex : α → α) (params : Nat → α) (st : (Nat → α) × α) (i : Nat) :
    (Nat → α) × α :=
  if params i > 8 then
    (Function.update st.1 i (ex 8), st.2 + 10 * (params i - 8))
  else if params i < -8 then
    (Function.update st.1 i (ex (-8)), st.2 + 10 * (-params i - 8))
  else
    (Function.update st.1 i (ex (params i)), st.2)

/-- The loop of `criter` that sets the sigmas and sums the penalty. -/
def sigmaLoop (ex : α → α) (ngates : Nat) (params sigma : Nat → α) : (Nat → α) × α :=
  (List.range ngates).foldl (sigmaStep ex params) (sigma, 0)

/-- The body of the cross validation loop of `criter`; the state is the
object and `error`. -/
def cvStep (ex : α → α) (st : State α × α) (i : Nat) : State α × α :=
  let s := st.1
  let off := i * (s.ngates + s.nmodels + 1)
  let inputs : Nat → α := fun k => s.tset (off + k)
  let r := trial ex s inputs (fun k => inputs (s.ngates + k)) (i : Int) 0
  let diff := inputs (s.ngates + s.nmodels) - r.1
  (r.2, st.2 + diff * diff)

/-- The function `criter`, with the object `*local_model` made explicit: the
returned value and the object after the call. -/
def criter (ex : α → α) (s : State α) (params : Nat → α) : α × State α :=
  let sp := sigmaLoop ex s.ngates params s.sigma
  let s : State α := { s with sigma := sp.1 }
  let penalty := sp.2
  let st := (List.range s.ncases).foldl (cvStep ex) (s, 0)
  (st.2 / (s.ncases : α) + penalty, st.1)

/-- The function `univar_criter`. -/
def univar_criter (ex : α → α) (s : State α) (param : α) : α × State α :=
  criter ex s (fun _ => param)

/-! ## Closed forms of the quantities computed by the loops -/

/-- Gate `g` of training case `i`, at the offset where `trial` reads it. -/
def caseGate (s : State α) (i g : Nat) : α :=
  s.tset ((s.ngates + s.nmodels + 1) * i + g)

/-- Contender `m` of training case `i`, at the offset where `trial` reads it. -/
def caseContender (s : State α) (i m : Nat) : α :=
  s.tset ((s.ngates + s.nmodels + 1) * i + (s.ngates + m))

/-- True value of training case `i`, at the offset where `trial` reads it. -/
def caseTarget (s : State α) (i : Nat) : α :=
  s.tset ((s.ngates + s.nmodels + 1) * i + (s.ngates + s.nmodels))

/-- The kernel value `exp ( -dist )` of training case `i` for a query. -/
def caseKernel (ex : α → α) (s : State α) (gates : Nat → α) (i : Nat) : α :=
  ex (-(∑ g in Finset.range s.ngates, ((gates g - caseGate s i g) / s.sigma g) ^ 2))

/-- The value of `errvals[k]` at the end of the loop over the training cases. -/
def errSum (ex : α → α) (s : State α) (gates : Nat → α) (i_exclude n_exclude : Int)
    (k : Nat) : α :=
  ∑ i in Finset.range s.ncases,
    if caseSkipped s.ncases i_exclude n_exclude i then 0
    else caseKernel ex s gates i * (caseContender s i k - caseTarget s i) ^ 2

/-- The conversion of an accumulated error to an unnormalised weight. -/
def invErr (x : α) : α := if x > 1e-30 then 1 / x else 1e30

/-! ## The formulas of the specification -/

/-- The circular distance `min(|i-e|, N-|i-e|)` between case `i` and the
excluded index `e`, as the specification writes it. -/
def specDist (N : Nat) (e : Int) (i : Nat) : Int :=
  min |(i : Int) - e| ((N : Int) - |(i : Int) - e|)

/-- The kernel-weighted squared error `E[m]` of contender `m` over the cases
that are not excluded, written on the caller's arrays. -/
def specE (ex : α → α) (N G M : Nat) (gates contenders target sigma q : Nat → α)
    (e R : Int) (m : Nat) : α :=
  ∑ i in (Finset.range N).filter (fun i => ¬ specDist N e i ≤ R),
    ex (-(∑ g in Finset.range G, ((q g - gates (i * G + g)) / sigma g) ^ 2))
      * (contenders (i * M + m) - target i) ^ 2

/-- The inverse `inv[m]`: `1/E` above the threshold `1e-30`, else `1e30`. -/
def specInv (x : α) : α := if x > 1e-30 then 1 / x else 1e30

/-- The weight `w[m] = inv[m] / sum_k inv[k]`. -/
def specWeight (ex : α → α) (N G M : Nat) (gates contenders target sigma q : Nat → α)
    (e R : Int) (m : Nat) : α :=
  specInv (specE ex N G M gates contenders target sigma q e R m)
    / ∑ k in Finset.range M, specInv (specE ex N G M gates contenders target sigma q e R k)

/-- The blended prediction `sum_m w[m] * c[m]`. -/
def specTrial (ex : α → α) (N G M : Nat) (gates contenders target sigma q c : Nat → α)
    (e R : Int) : α :=
  ∑ m in Finset.range M, specWeight ex N G M gates contenders target sigma q e R m * c m

/-! ## Concrete objects used in the evaluations -/

/-- Two cases, one gate, two contenders: both gates and both true values are
`0`; contender `0` is exact in both cases, contender `1` is exact in case `0`
and off by `1` in the last case. -/
def lastCaseState (α : Type) [LinearOrderedField α] : State α :=
  ⟨2, 1, 2, fun k => if k = 6 then 1 else 0, fun _ => 1, fun _ => 0⟩

/-- Two cases, one gate, two contenders: both gates and both true values are
`0`; contender `0` is exact and contender `1` is off by `1` in both cases. -/
def farQueryState (α : Type) [LinearOrderedField α] : State α :=
  ⟨2, 1, 2, fun k => if k = 2 ∨ k = 6 then 1 else 0, fun _ => 1, fun _ => 0⟩

/-- The query contenders `[10, 20]`. -/
def query1020 (α : Type) [LinearOrderedField α] : Nat → α :=
  fun k => if k = 0 then 10 else 20

/-- The weight `inv / (1e30 + inv)` that a contender of accumulated error `E`
gets against one contender holding the sentinel `1e30`. -/
def rivalWeight (E : α) : α := invErr E / (1e30 + invErr E)

/-- The gates `[0, 1, 2, 3]` of the concrete scenario, as the caller's array. -/
def scenGates (α : Type) [LinearOrderedField α] : Nat → α := fun k => (k : α)

/-- The contenders of the concrete scenario, as the caller's array of `N` rows
of `M = 2` values: in case `i` contender `0` is `i` and contender `1` is `i + 5`. -/
def scenContenders (α : Type) [LinearOrderedField α] : Nat → α :=
  fun k => if k % 2 = 0 then ((k / 2 : Nat) : α) else ((k / 2 : Nat) : α) + 5

/-- The true values `[0, 1, 2, 3]` of the concrete scenario. -/
def scenTarget (α : Type) [LinearOrderedField α] : Nat → α := fun i => (i : α)

/-- The object of the concrete scenario (`N = 4`, `G = 1`, `M = 2`) after the
copy loop of the constructor; `raw`, `sigma` and `ev` are the contents of the
three freshly allocated buffers. -/
def scenarioState (raw sigma ev : Nat → α) : State α :=
  ⟨4, 1, 2, packTset 4 1 2 (scenGates α) (scenContenders α) (scenTarget α) raw, sigma, ev⟩

/-- The error accumulated for contender `1` of the concrete scenario, for the
bandwidth `sg`, the query gate `x` and the call `trial ( .. , e , 0 )`. -/
def scenErr (ex : α → α) (sg x : α) (e : Int) : α :=
  ∑ i in Finset.range 4,
    if caseSkipped 4 e 0 i then 0 else ex (-(((x - (i : α)) / sg) ^ 2)) * 25

/-! ## Sequences of calls of `trial` -/

/-- The arguments of one call of `trial`. -/
structure TrialArgs (α : Type) where
  /-- Gate variables of the query -/
  gates : Nat → α
  /-- Contender values of the query -/
  contenders : Nat → α
  /-- Index of the excluded case -/
  i_exclude : Int
  /-- Radius of the exclusion -/
  n_exclude : Int

/-- The object after a sequence of calls of `trial`, made one after the other
on the same object. -/
def afterTrials (ex : α → α) (s : State α) (calls : List (TrialArgs α)) : State α :=
  calls.foldl (fun s a => (trial ex s a.gates a.contenders a.i_exclude a.n_exclude).2) s

/-! ## Constructor: the fitter -/

/-- The three minimisers of `minimize.h`, which is not among the sources; the
constructor takes them as parameters.  Each receives the criterion as the
function of its argument that `criter` computes, and gives back what the
constructor reads afterwards. -/
structure Minimizers (α : Type) where
  /-- `glob_min ( low , high , npts , log_space , critlim , criter , .. )`: the
  three points `(x1, y1)`, `(x2, y2)`, `(x3, y3)` it stores -/
  glob_min : α → α → Nat → Nat → α → (α → α) → (α × α) × (α × α) × (α × α)
  /-- `brentmin ( itmax , critlim , eps , tol , criter , &x1 , &x2 , &x3 , y )`:
  the value it leaves in `x2` -/
  brentmin : Nat → α → α → α → (α → α) → α → α → α → α → α
  /-- `powell ( maxits , critlim , tol , criter , n , x , ystart , .. )`: the
  vector it leaves in `x` -/
  powell : Nat → α → α → ((Nat → α) → α) → Nat → (Nat → α) → α → (Nat → α)

/-- The minimisers that the constructor can invoke. -/
inductive MinCall where
  | glob_min
  | brentmin
  | powell
  deriving DecidableEq

/-- The outcome of the constructor: the object, and the minimisers invoked on
the way, in order. -/
structure Built (α : Type) where
  /-- The constructed object -/
  obj : State α
  /-- The minimisers invoked -/
  calls : List MinCall

/-- The loop `params[i] = 0.0` of the constructor. -/
def zeroParams (ngates : Nat) (params : Nat → α) : Nat → α :=
  (List.range ngates).foldl (fun p i => Function.update p i 0) params

/-- The constructor `GRNNgate::GRNNgate`.  `rawT`, `rawS`, `rawE`, `rawP` are
the contents of the freshly allocated `tset`, `sigma`, `errvals` and `params`.
A minimiser acts on the object only by calling `criter`, which rewrites
`sigma[0..ngates)` and, through `trial`, `errvals[0..nmodels)`; the last call
`criter ( params )` rewrites the same cells, so it is applied to the object as
it was before the minimiser ran. -/
def construct (ex : α → α) (mz : Minimizers α) (rawT rawS rawE rawP : Nat → α)
    (n n_gates nmods : Nat) (gates contenders trueval : Nat → α) : Built α :=
  let s0 : State α :=
    ⟨n, n_gates, nmods, packTset n n_gates nmods gates contenders trueval rawT, rawS, rawE⟩
  if n_gates = 1 then
    let b := mz.glob_min (-3) 3 15 0 0 (fun x => (univar_criter ex s0 x).1)
    let x2 := mz.brentmin 10 0 1e-5 1e-5 (fun x => (univar_criter ex s0 x).1)
      b.1.1 b.2.1.1 b.2.2.1 b.2.1.2
    let params := Function.update rawP 0 x2
    ⟨(criter ex s0 params).2, [MinCall.glob_min, MinCall.brentmin]⟩
  else
    let params := zeroParams n_gates rawP
    let r := criter ex s0 params
    if r.1 > 0 then
      let params := mz.powell 10 0 1e-4 (fun x => (criter ex s0 x).1) n_gates params r.1
      ⟨(criter ex s0 params).2, [MinCall.powell]⟩
    else
      ⟨(criter ex r.2 params).2, []⟩

/-- Minimisers that do no search: `glob_min` gives back the two ends and the
middle of the interval, `brentmin` and `powell` give back their start. -/
def idleMinimizers (α : Type) [LinearOrderedField α] : Minimizers α where
  glob_min := fun low high _ _ _ f =>
    ((low, f low), ((low + high) / 2, f ((low + high) / 2)), (high, f high))
  brentmin := fun _ _ _ _ _ _ x2 _ _ => x2
  powell := fun _ _ _ _ _ x _ => x

/-! ## `main`: the test of the command line values -/

/-- The test of `main` that prints the usage and exits:
`(nsamps <= 0) || (nmodels <= 0) || (ntries <= 0) || (std < 0.0)`. -/
def mainRejects (nsamps nmodels ntries : Int) (std : α) : Bool :=
  decide (nsamps ≤ 0) || decide (nmodels ≤ 0) || decide (ntries ≤ 0) || decide (std < 0)

/-! ## The limit of a large bandwidth -/

/-- The kernel value of training case `i` when gate `g` is left out of the
distance: what `caseKernel` tends to as `sigma[g]` grows. -/
def caseKernelWithout (ex : α → α) (s : State α) (gates : Nat → α) (g i : Nat) : α :=
  ex (-(∑ g' in Finset.range s.ngates,
    if g' = g then 0 else ((gates g' - caseGate s i g') / s.sigma g') ^ 2))

/-- The accumulated error of contender `k` when gate `g` is left out of the
distance. -/
def errSumWithout (ex : α → α) (s : State α) (gates : Nat → α) (i_exclude n_exclude : Int)
    (g k : Nat) : α :=
  ∑ i in Finset.range s.ncases,
    if caseSkipped s.ncases i_exclude n_exclude i then 0
    else caseKernelWithout ex s gates g i * (caseContender s i k - caseTarget s i) ^ 2

end GRNNgate

/-! # Properties -/

namespace GRNNgate

open Finset

/-! ## The loops in closed form -/

/-- A loop that rewrites cell `i` from its old value in pass `i`. -/
theorem foldl_update_range {β : Type} (f : Nat → β → β) (n : Nat) (ev : Nat → β) :
    (List.range n).foldl (fun ev i => Function.update ev i (f i (ev i))) ev
      = fun k => if k < n then f k (ev k) else ev k := by
  induction n with
  | zero => simp
  | succ n ih =>
    rw [List.range_succ, List.foldl_append, ih]
    funext k
    by_cases hk : k = n
    · subst hk; simp
    · have h1 : k < n + 1 ↔ k < n := by omega
      simp [Function.update_noteq hk, h1]

variable {α : Type} [LinearOrderedField α]

/-- A loop that adds a term per pass. -/
theorem foldl_add_range (f : Nat → α) (n : Nat) (a : α) :
    (List.range n).foldl (fun acc i => acc + f i) a = a + ∑ i in range n, f i := by
  induction n with
  | zero => simp
  | succ n ih =>
    rw [List.range_succ, List.foldl_append, ih, sum_range_succ]
    simp [add_assoc]

theorem zeroErrvals_apply (n : Nat) (ev : Nat → α) (k : Nat) :
    zeroErrvals n ev k = if k < n then 0 else ev k := by
  unfold zeroErrvals
  rw [foldl_update_range (fun _ _ => (0:α))]

theorem gateDist_eq (n : Nat) (sigma gates dptr : Nat → α) :
    gateDist n sigma gates dptr = ∑ g in range n, ((gates g - dptr g) / sigma g) ^ 2 := by
  unfold gateDist
  have := foldl_add_range (fun g => (gates g - dptr g) / sigma g * ((gates g - dptr g) / sigma g)) n 0
  simp only [zero_add] at this
  rw [this]
  refine sum_congr rfl (fun g _ => ?_)
  ring

theorem accumulate_apply (n : Nat) (dist : α) (dptr : Nat → α) (outval : α)
    (ev : Nat → α) (k : Nat) :
    accumulate n dist dptr outval ev k
      = if k < n then ev k + dist * (dptr k - outval) * (dptr k - outval) else ev k := by
  unfold accumulate
  rw [foldl_update_range (fun i v => v + dist * (dptr i - outval) * (dptr i - outval))]

theorem normalize_apply (n : Nat) (psum : α) (ev : Nat → α) (k : Nat) :
    normalize n psum ev k = if k < n then ev k / psum else ev k := by
  unfold normalize
  rw [foldl_update_range (fun _ v => v / psum)]

theorem weightedOut_eq (n : Nat) (ev c : Nat → α) :
    weightedOut n ev c = ∑ k in range n, ev k * c k := by
  unfold weightedOut
  rw [foldl_add_range (fun k => ev k * c k)]
  simp

theorem caseStep_apply (ex : α → α) (s : State α) (gates : Nat → α) (e R : Int)
    (ev : Nat → α) (i k : Nat) :
    caseStep ex s gates e R ev i k
      = if k < s.nmodels then
          ev k + (if caseSkipped s.ncases e R i then 0
                  else caseKernel ex s gates i * (caseContender s i k - caseTarget s i) ^ 2)
        else ev k := by
  unfold caseStep
  by_cases hs : caseSkipped s.ncases e R i = true
  · simp [hs]
  · simp only [hs, if_false, Bool.false_eq_true]
    rw [accumulate_apply, gateDist_eq]
    unfold caseKernel caseGate caseContender caseTarget
    by_cases hk : k < s.nmodels
    · simp only [hk, if_true]
      ring
    · simp [hk]

theorem caseLoop_aux (ex : α → α) (s : State α) (gates : Nat → α) (e R : Int)
    (ev : Nat → α) (n k : Nat) :
    (List.range n).foldl (caseStep ex s gates e R) ev k
      = if k < s.nmodels then
          ev k + ∑ i in range n,
            (if caseSkipped s.ncases e R i then 0
             else caseKernel ex s gates i * (caseContender s i k - caseTarget s i) ^ 2)
        else ev k := by
  induction n with
  | zero => simp
  | succ n ih =>
    rw [List.range_succ, List.foldl_append, List.foldl_cons, List.foldl_nil, caseStep_apply, ih,
      sum_range_succ]
    by_cases hk : k < s.nmodels
    · simp only [hk, if_true]
      ring
    · simp [hk]

theorem caseLoop_apply (ex : α → α) (s : State α) (gates : Nat → α) (e R : Int)
    (ev : Nat → α) (k : Nat) :
    caseLoop ex s gates e R ev k
      = if k < s.nmodels then ev k + errSum ex s gates e R k else ev k := by
  unfold caseLoop errSum
  exact caseLoop_aux ex s gates e R ev s.ncases k

theorem invertStep_eq (st : (Nat → α) × α) (i : Nat) :
    invertStep st i
      = (Function.update st.1 i (invErr (st.1 i)), st.2 + invErr (st.1 i)) := by
  unfold invertStep invErr
  by_cases h : st.1 i > 1e-30
  · simp only [h, if_true, Function.update_same]
  · simp only [h, if_false, Function.update_same]

theorem invertLoop_aux (n : Nat) (ev : Nat → α) (p : α) :
    (List.range n).foldl invertStep (ev, p)
      = (fun k => if k < n then invErr (ev k) else ev k,
         p + ∑ k in range n, invErr (ev k)) := by
  induction n with
  | zero => simp
  | succ n ih =>
    rw [List.range_succ, List.foldl_append, ih, List.foldl_cons, List.foldl_nil, sum_range_succ,
      invertStep_eq]
    simp only [lt_self_iff_false, if_false]
    refine Prod.ext ?_ (by simp [add_assoc])
    funext k
    by_cases hk : k = n
    · subst hk; simp
    · have h1 : k < n + 1 ↔ k < n := by omega
      simp [Function.update_noteq hk, h1]

theorem invertLoop_fst (n : Nat) (ev : Nat → α) (k : Nat) :
    (invertLoop n ev).1 k = if k < n then invErr (ev k) else ev k := by
  unfold invertLoop
  rw [invertLoop_aux]

theorem invertLoop_snd (n : Nat) (ev : Nat → α) :
    (invertLoop n ev).2 = ∑ k in range n, invErr (ev k) := by
  unfold invertLoop
  rw [invertLoop_aux]
  simp

/-- The content of `errvals` after a call of `trial`. -/
theorem trialErrvals_apply (ex : α → α) (s : State α) (gates : Nat → α) (e R : Int) (k : Nat) :
    trialErrvals ex s gates e R k
      = if k < s.nmodels then
          invErr (errSum ex s gates e R k)
            / ∑ j in range s.nmodels, invErr (errSum ex s gates e R j)
        else s.errvals k := by
  unfold trialErrvals
  rw [normalize_apply, invertLoop_fst, invertLoop_snd, caseLoop_apply, zeroErrvals_apply]
  by_cases hk : k < s.nmodels
  · simp only [hk, if_true, zero_add]
    congr 1
    refine sum_congr rfl (fun j hj => ?_)
    rw [caseLoop_apply, zeroErrvals_apply]
    simp [mem_range.mp hj]
  · simp [hk]

theorem trial_fst (ex : α → α) (s : State α) (gates c : Nat → α) (e R : Int) :
    (trial ex s gates c e R).1
      = ∑ k in range s.nmodels,
          invErr (errSum ex s gates e R k)
            / (∑ j in range s.nmodels, invErr (errSum ex s gates e R j)) * c k := by
  unfold trial
  simp only
  rw [weightedOut_eq]
  refine sum_congr rfl (fun k hk => ?_)
  rw [trialErrvals_apply]
  simp [mem_range.mp hk]

theorem invErr_pos (x : α) : 0 < invErr x := by
  unfold invErr
  split_ifs with h
  · have : (0:α) < x := lt_trans (by norm_num) h
    positivity
  · norm_num

/-! ## The packed training set -/

theorem packStep_snd (G M : Nat) (gates contenders trueval : Nat → α)
    (st : (Nat → α) × Nat) (i : Nat) :
    (packStep G M gates contenders trueval st i).2 = st.2 + G + M + 1 := rfl

theorem packStep_fst (G M : Nat) (gates contenders trueval : Nat → α)
    (st : (Nat → α) × Nat) (i k : Nat) :
    (packStep G M gates contenders trueval st i).1 k
      = if k < st.2 then st.1 k
        else if k < st.2 + G then gates (i * G + (k - st.2))
        else if k < st.2 + G + M then contenders (i * M + (k - (st.2 + G)))
        else if k = st.2 + G + M then trueval i
        else st.1 k := by
  unfold packStep memcpy
  simp only
  by_cases h4 : k = st.2 + G + M
  · subst h4
    have e1 : ¬ (st.2 + G + M < st.2) := by omega
    have e2 : ¬ (st.2 + G + M < st.2 + G) := by omega
    simp [e1, e2]
  · rw [Function.update_noteq h4]
    by_cases h1 : k < st.2
    · have e1 : ¬ (st.2 + G ≤ k ∧ k < st.2 + G + M) := by omega
      have e2 : ¬ (st.2 ≤ k ∧ k < st.2 + G) := by omega
      simp [h1, e1, e2]
    · by_cases h2 : k < st.2 + G
      · have e1 : ¬ (st.2 + G ≤ k ∧ k < st.2 + G + M) := by omega
        have e2 : (st.2 ≤ k ∧ k < st.2 + G) := by omega
        simp [h1, h2, e1, e2]
      · by_cases h3 : k < st.2 + G + M
        · have e1 : (st.2 + G ≤ k ∧ k < st.2 + G + M) := by omega
          simp [h1, h2, h3, e1]
        · have e1 : ¬ (st.2 + G ≤ k ∧ k < st.2 + G + M) := by omega
          have e2 : ¬ (st.2 ≤ k ∧ k < st.2 + G) := by omega
          simp [h1, h2, h3, h4, e1, e2]

/-- Invariant of the copy loop of the constructor after `n` passes. -/
theorem packLoop_inv (G M : Nat) (gates contenders trueval raw : Nat → α) (n : Nat) :
    let st := (List.range n).foldl (packStep G M gates contenders trueval) (raw, 0)
    st.2 = (G + M + 1) * n ∧
    (∀ i, i < n → ∀ g, g < G → st.1 ((G + M + 1) * i + g) = gates (i * G + g)) ∧
    (∀ i, i < n → ∀ m, m < M → st.1 ((G + M + 1) * i + (G + m)) = contenders (i * M + m)) ∧
    (∀ i, i < n → st.1 ((G + M + 1) * i + (G + M)) = trueval i) := by
  induction n with
  | zero => simp
  | succ n ih =>
    simp only at ih ⊢
    rw [List.range_succ, List.foldl_append, List.foldl_cons, List.foldl_nil]
    obtain ⟨h2, hg, hc, ht⟩ := ih
    generalize (List.range n).foldl (packStep G M gates contenders trueval) (raw, 0) = st at *
    have hlt : ∀ i, i < n → ∀ r, r < G + M + 1 → (G + M + 1) * i + r < st.2 := by
      intro i hi r hr
      have : (G + M + 1) * (i + 1) ≤ (G + M + 1) * n := Nat.mul_le_mul_left _ hi
      rw [h2]
      rw [Nat.mul_succ] at this
      omega
    refine ⟨?_, ?_, ?_, ?_⟩
    · rw [packStep_snd, h2, Nat.mul_succ]; omega
    · intro i hi g hg'
      rw [packStep_fst]
      by_cases hin : i < n
      · rw [if_pos (hlt i hin g (by omega))]
        exact hg i hin g hg'
      · have : i = n := by omega
        subst this
        rw [← h2]
        have e1 : ¬ (st.2 + g < st.2) := by omega
        have e2 : st.2 + g < st.2 + G := by omega
        simp [e1, e2]
    · intro i hi m hm
      rw [packStep_fst]
      by_cases hin : i < n
      · rw [if_pos (hlt i hin (G + m) (by omega))]
        exact hc i hin m hm
      · have : i = n := by omega
        subst this
        rw [← h2]
        have e1 : ¬ (st.2 + (G + m) < st.2) := by omega
        have e2 : ¬ (st.2 + (G + m) < st.2 + G) := by omega
        have e3 : st.2 + (G + m) < st.2 + G + M := by omega
        have e4 : st.2 + (G + m) - (st.2 + G) = m := by omega
        simp [e1, e2, e3, e4]
    · intro i hi
      rw [packStep_fst]
      by_cases hin : i < n
      · rw [if_pos (hlt i hin (G + M) (by omega))]
        exact ht i hin
      · have : i = n := by omega
        subst this
        rw [← h2]
        have e1 : ¬ (st.2 + (G + M) < st.2) := by omega
        have e2 : ¬ (st.2 + (G + M) < st.2 + G) := by omega
        have e3 : ¬ (st.2 + (G + M) < st.2 + G + M) := by omega
        have e4 : st.2 + (G + M) = st.2 + G + M := by omega
        rw [if_neg e1, if_neg e2, if_neg e3, if_pos e4]

/-! ## The exclusion window -/

theorem idistOf_eq_specDist (N : Nat) (e : Int) (i : Nat) :
    idistOf N e i = specDist N e i := by
  unfold idistOf specDist
  simp only
  rw [abs_sub_comm e (i : Int)]
  split_ifs with h
  · exact (min_eq_right (le_of_lt h)).symm
  · exact (min_eq_left (not_lt.mp h)).symm

theorem caseSkipped_iff (N : Nat) (e R : Int) (i : Nat) :
    caseSkipped N e R i = true ↔ specDist N e i ≤ R := by
  unfold caseSkipped
  rw [decide_eq_true_iff, idistOf_eq_specDist]

theorem specDist_eq_zero_iff (N : Nat) (e : Int) (i : Nat) (he0 : 0 ≤ e) (heN : e < N)
    (hi : i < N) : specDist N e i ≤ 0 ↔ (i : Int) = e := by
  unfold specDist
  have hi' : (i : Int) < N := by exact_mod_cast hi
  have h0 : (0 : Int) ≤ i := Int.natCast_nonneg i
  rcases abs_cases ((i : Int) - e) with ⟨h1, h2⟩ | ⟨h1, h2⟩ <;> rw [h1] <;>
    rcases min_cases ((i : Int) - e) ((N : Int) - ((i : Int) - e)) with ⟨h3, h4⟩ | ⟨h3, h4⟩ <;>
    rcases min_cases (-((i : Int) - e)) ((N : Int) - (-((i : Int) - e))) with ⟨h5, h6⟩ | ⟨h5, h6⟩ <;>
    constructor <;> intro h <;> omega

/-- The accumulated error as a sum over the cases outside the window. -/
theorem errSum_eq_filter (ex : α → α) (s : State α) (gates : Nat → α) (e R : Int) (k : Nat) :
    errSum ex s gates e R k
      = ∑ i in (range s.ncases).filter (fun i => ¬ specDist s.ncases e i ≤ R),
          caseKernel ex s gates i * (caseContender s i k - caseTarget s i) ^ 2 := by
  unfold errSum
  rw [sum_filter]
  refine sum_congr rfl (fun i _ => ?_)
  by_cases h : specDist s.ncases e i ≤ R
  · simp [h, (caseSkipped_iff s.ncases e R i).mpr h]
  · have : ¬ (caseSkipped s.ncases e R i = true) := fun hh => h ((caseSkipped_iff _ _ _ _).mp hh)
    simp [h, this]

/-! ## Claims on `trial` -/

/-- C1: for a combiner whose `tset` is the constructor's packed copy of the
caller arrays `gates[N*G]`, `contenders[N*M]`, `target[N]` and whose
bandwidths are positive, and for every query and every exclusion `(e, R)` with
`0 <= e < N` and `R >= 0`, `trial` returns `sum_m w[m]*c[m]` with the weights
of the specification (`specTrial`). -/
theorem C1_trial_eq_spec (N G M : Nat) (gates contenders target raw sigma ev q c : Nat → ℝ)
    (e R : Int) (_hσ : ∀ g, g < G → 0 < sigma g) (_he0 : 0 ≤ e) (_heN : e < N) (_hR : 0 ≤ R) :
    (trial Real.exp
        ⟨N, G, M, packTset N G M gates contenders target raw, sigma, ev⟩ q c e R).1
      = specTrial Real.exp N G M gates contenders target sigma q c e R := by
  have hpack := packLoop_inv G M gates contenders target raw N
  simp only at hpack
  obtain ⟨-, hg, hc, ht⟩ := hpack
  have hE : ∀ k, k < M →
      errSum Real.exp ⟨N, G, M, packTset N G M gates contenders target raw, sigma, ev⟩ q e R k
        = specE Real.exp N G M gates contenders target sigma q e R k := by
    intro k hk
    rw [errSum_eq_filter]
    unfold specE
    refine sum_congr rfl (fun i hi => ?_)
    have hiN : i < N := mem_range.mp (mem_filter.mp hi).1
    unfold caseKernel caseGate caseContender caseTarget packTset
    simp only
    rw [hc i hiN k hk, ht i hiN]
    congr 3
    refine sum_congr rfl (fun g hg' => ?_)
    rw [hg i hiN g (mem_range.mp hg')]
  rw [trial_fst]
  unfold specTrial specWeight
  simp only
  have hsum : ∑ j in range M, invErr (errSum Real.exp
        ⟨N, G, M, packTset N G M gates contenders target raw, sigma, ev⟩ q e R j)
      = ∑ j in range M, specInv (specE Real.exp N G M gates contenders target sigma q e R j) :=
    sum_congr rfl (fun j hj => by rw [hE j (mem_range.mp hj)]; rfl)
  rw [hsum]
  refine sum_congr rfl (fun k hk => ?_)
  rw [hE k (mem_range.mp hk)]
  rfl

/-- Witness of C1: two cases, one gate, two contenders, unit bandwidth. -/
theorem C1_trial_eq_spec_witness :
    (trial Real.exp
        ⟨2, 1, 2, packTset 2 1 2 (fun _ => 0) (fun k => k) (fun _ => 0) (fun _ => 0),
          fun _ => 1, fun _ => 0⟩ (fun _ => 0) (fun _ => 1) 0 0).1
      = specTrial Real.exp 2 1 2 (fun _ => 0) (fun k => k) (fun _ => 0) (fun _ => 1)
          (fun _ => 0) (fun _ => 1) 0 0 :=
  C1_trial_eq_spec 2 1 2 (fun _ => 0) (fun k => k) (fun _ => 0) (fun _ => 0) (fun _ => 1)
    (fun _ => 0) (fun _ => 0) (fun _ => 1) 0 0 (fun _ _ => one_pos) (le_refl 0) (by norm_num)
    (le_refl 0)

/-- C3: for `N >= 1`, `0 <= e < N` and `R >= 0`, the case loop of `trial` skips
case `i` exactly when `min(|i-e|, N-|i-e|) <= R`, so that the sums left in
`errvals` run over the other cases; with `R = 0` the only skipped case is
`i = e`. -/
theorem C3_exclusion_window (s : State ℝ) (q ev : Nat → ℝ) (e R : Int)
    (_hN : 1 ≤ s.ncases) (he0 : 0 ≤ e) (heN : e < s.ncases) (_hR : 0 ≤ R) :
    (∀ i, i < s.ncases →
      (caseSkipped s.ncases e R i = true
        ↔ min |(i : Int) - e| ((s.ncases : Int) - |(i : Int) - e|) ≤ R)) ∧
    (∀ i, i < s.ncases →
      caseStep Real.exp s q e R ev i
        = if min |(i : Int) - e| ((s.ncases : Int) - |(i : Int) - e|) ≤ R then ev
          else accumulate s.nmodels (caseKernel Real.exp s q i) (caseContender s i)
                 (caseTarget s i) ev) ∧
    (∀ k, k < s.nmodels →
      caseLoop Real.exp s q e R ev k
        = ev k + ∑ i in (range s.ncases).filter
              (fun i : Nat => ¬ min |(i : Int) - e| ((s.ncases : Int) - |(i : Int) - e|) ≤ R),
            caseKernel Real.exp s q i * (caseContender s i k - caseTarget s i) ^ 2) ∧
    (∀ i, i < s.ncases → (caseSkipped s.ncases e 0 i = true ↔ (i : Int) = e)) := by
  refine ⟨fun i _ => caseSkipped_iff _ _ _ _, fun i _ => ?_, fun k hk => ?_, fun i hi => ?_⟩
  · unfold caseStep
    by_cases h : specDist s.ncases e i ≤ R
    · have h' := h
      unfold specDist at h'
      rw [if_pos ((caseSkipped_iff _ _ _ _).mpr h), if_pos h']
    · have h' := h
      unfold specDist at h'
      have hs : ¬ (caseSkipped s.ncases e R i = true) :=
        fun hh => h ((caseSkipped_iff _ _ _ _).mp hh)
      rw [if_neg hs, if_neg h']
      simp only
      rw [gateDist_eq]
      rfl
  · rw [caseLoop_apply, if_pos hk, errSum_eq_filter]
    rfl
  · rw [caseSkipped_iff]
    exact specDist_eq_zero_iff _ _ _ he0 heN hi

/-- Witness of C3: four cases, window of radius one around case `1`. -/
theorem C3_exclusion_window_witness :
    (∀ i, i < 4 →
      (caseSkipped 4 1 1 i = true ↔ min |(i : Int) - 1| (((4 : Nat) : Int) - |(i : Int) - 1|) ≤ 1)) ∧
    (∀ i, i < 4 → (caseSkipped 4 1 0 i = true ↔ (i : Int) = 1)) :=
  have h := C3_exclusion_window ⟨4, 1, 1, fun _ => 0, fun _ => 1, fun _ => 0⟩ (fun _ => 0)
    (fun _ => 0) 1 1 (by norm_num) (by norm_num) (by norm_num) (by norm_num)
  ⟨h.1, h.2.2.2⟩

/-! ## Weights -/

theorem psum_pos (ex : ℝ → ℝ) (s : State ℝ) (q : Nat → ℝ) (e R : Int) (hM : 1 ≤ s.nmodels) :
    0 < ∑ j in range s.nmodels, invErr (errSum ex s q e R j) :=
  sum_pos (fun j _ => invErr_pos _) (nonempty_range_iff.mpr (by omega))

/-- C4: for every call of `trial` with `M >= 1` and positive bandwidths, the
`M` weights left in `errvals` are non-negative and sum to `1`, hence to `1`
within `1e-9`. -/
theorem C4_normalization (s : State ℝ) (q c : Nat → ℝ) (e R : Int)
    (hM : 1 ≤ s.nmodels) (_hσ : ∀ g, g < s.ngates → 0 < s.sigma g) :
    (∀ k, k < s.nmodels → 0 ≤ (trial Real.exp s q c e R).2.errvals k) ∧
    ∑ k in range s.nmodels, (trial Real.exp s q c e R).2.errvals k = 1 ∧
    |∑ k in range s.nmodels, (trial Real.exp s q c e R).2.errvals k - 1| ≤ 1e-9 := by
  have hp := psum_pos Real.exp s q e R hM
  have hsum : ∑ k in range s.nmodels, (trial Real.exp s q c e R).2.errvals k = 1 := by
    have : ∀ k ∈ range s.nmodels, (trial Real.exp s q c e R).2.errvals k
        = invErr (errSum Real.exp s q e R k)
            / ∑ j in range s.nmodels, invErr (errSum Real.exp s q e R j) := by
      intro k hk
      show trialErrvals Real.exp s q e R k = _
      rw [trialErrvals_apply, if_pos (mem_range.mp hk)]
    rw [sum_congr rfl this, ← sum_div]
    exact div_self (ne_of_gt hp)
  refine ⟨fun k hk => ?_, hsum, ?_⟩
  · show 0 ≤ trialErrvals Real.exp s q e R k
    rw [trialErrvals_apply, if_pos hk]
    exact div_nonneg (le_of_lt (invErr_pos _)) (le_of_lt hp)
  · rw [hsum]
    norm_num

/-- Witness of C4: the state of two cases and two contenders. -/
theorem C4_normalization_witness :
    (∀ k, k < 2 →
      0 ≤ (trial Real.exp ⟨2, 1, 2, fun k => k, fun _ => 1, fun _ => 0⟩
            (fun _ => 0) (fun _ => 1) 0 0).2.errvals k) ∧
    ∑ k in range 2,
      (trial Real.exp ⟨2, 1, 2, fun k => k, fun _ => 1, fun _ => 0⟩
        (fun _ => 0) (fun _ => 1) 0 0).2.errvals k = 1 ∧
    |∑ k in range 2,
      (trial Real.exp ⟨2, 1, 2, fun k => k, fun _ => 1, fun _ => 0⟩
        (fun _ => 0) (fun _ => 1) 0 0).2.errvals k - 1| ≤ 1e-9 :=
  C4_normalization ⟨2, 1, 2, fun k => k, fun _ => 1, fun _ => 0⟩ (fun _ => 0) (fun _ => 1) 0 0
    (by norm_num) (fun _ _ => one_pos)

theorem specDist_le_half (N : Nat) (e : Int) (i : Nat) (he0 : 0 ≤ e) (heN : e < N)
    (hi : i < N) : specDist N e i ≤ (N : Int) / 2 := by
  unfold specDist
  have hi' : (i : Int) < N := by exact_mod_cast hi
  have h0 : (0 : Int) ≤ i := Int.natCast_nonneg i
  rcases abs_cases ((i : Int) - e) with ⟨h1, h2⟩ | ⟨h1, h2⟩ <;> rw [h1] <;>
    rcases min_cases ((i : Int) - e) ((N : Int) - ((i : Int) - e)) with ⟨h3, h4⟩ | ⟨h3, h4⟩ <;>
    rcases min_cases (-((i : Int) - e)) ((N : Int) - (-((i : Int) - e))) with ⟨h5, h6⟩ | ⟨h5, h6⟩ <;>
    omega

/-- C7: for `N >= 1`, `0 <= e < N` and an integer radius `R >= N/2`, `trial`
skips every training case, every contender takes the sentinel `1e30`, every
weight is `1/M`, and the returned value is the arithmetic mean of the query
contenders (an expression in which neither the query gates, nor the
bandwidths, nor the training data occur). -/
theorem C7_all_excluded (s : State ℝ) (q c : Nat → ℝ) (e R : Int)
    (_hN : 1 ≤ s.ncases) (he0 : 0 ≤ e) (heN : e < s.ncases) (hR : (s.ncases : Int) / 2 ≤ R) :
    (∀ i, i < s.ncases → caseSkipped s.ncases e R i = true) ∧
    (∀ k, k < s.nmodels →
      (invertLoop s.nmodels
        (caseLoop Real.exp s q e R (zeroErrvals s.nmodels s.errvals))).1 k = 1e30) ∧
    (∀ k, k < s.nmodels → (trial Real.exp s q c e R).2.errvals k = 1 / (s.nmodels : ℝ)) ∧
    (trial Real.exp s q c e R).1 = (∑ k in range s.nmodels, c k) / (s.nmodels : ℝ) := by
  have hskip : ∀ i, i < s.ncases → caseSkipped s.ncases e R i = true := fun i hi =>
    (caseSkipped_iff _ _ _ _).mpr (le_trans (specDist_le_half _ _ _ he0 heN hi) hR)
  have hE : ∀ k, errSum Real.exp s q e R k = 0 := by
    intro k
    unfold errSum
    refine sum_eq_zero (fun i hi => ?_)
    rw [if_pos (hskip i (mem_range.mp hi))]
  have hinv : ∀ k, invErr (errSum Real.exp s q e R k) = 1e30 := by
    intro k
    rw [hE]
    unfold invErr
    norm_num
  have hw : ∀ k, k < s.nmodels →
      trialErrvals Real.exp s q e R k = 1 / (s.nmodels : ℝ) := by
    intro k hk
    rw [trialErrvals_apply, if_pos hk, hinv, sum_congr rfl (fun j _ => hinv j), sum_const,
      card_range, nsmul_eq_mul]
    have hM : (s.nmodels : ℝ) ≠ 0 := by
      have : 0 < s.nmodels := by omega
      exact_mod_cast this.ne'
    field_simp
    ring
  refine ⟨hskip, fun k hk => ?_, hw, ?_⟩
  · rw [invertLoop_fst, if_pos hk, caseLoop_apply, if_pos hk, zeroErrvals_apply, if_pos hk,
      zero_add]
    exact hinv k
  · show weightedOut s.nmodels (trialErrvals Real.exp s q e R) c = _
    rw [weightedOut_eq, sum_div]
    refine sum_congr rfl (fun k hk => ?_)
    rw [hw k (mem_range.mp hk)]
    ring

/-- Witness of C7: three cases and radius one. -/
theorem C7_all_excluded_witness :
    (trial Real.exp ⟨3, 1, 2, fun k => k, fun _ => 1, fun _ => 0⟩
        (fun _ => 5) (fun k => k) 0 1).1
      = (∑ k in range 2, ((fun k => k : Nat → ℝ) k)) / ((2 : Nat) : ℝ) :=
  (C7_all_excluded ⟨3, 1, 2, fun k => k, fun _ => 1, fun _ => 0⟩ (fun _ => 5) (fun k => k) 0 1
    (by norm_num) (by norm_num) (by norm_num) (by norm_num)).2.2.2

/-- C8: when `M = 1`, for every training set, positive bandwidths, query and
exclusion arguments, the single weight is `1` and `trial` returns the query's
contender value `c[0]`. -/
theorem C8_single_contender (s : State ℝ) (q c : Nat → ℝ) (e R : Int)
    (hM : s.nmodels = 1) (_hσ : ∀ g, g < s.ngates → 0 < s.sigma g) :
    (trial Real.exp s q c e R).2.errvals 0 = 1 ∧ (trial Real.exp s q c e R).1 = c 0 := by
  have hw : trialErrvals Real.exp s q e R 0 = 1 := by
    rw [trialErrvals_apply, hM, if_pos Nat.zero_lt_one, sum_range_one]
    exact div_self (ne_of_gt (invErr_pos _))
  refine ⟨hw, ?_⟩
  show weightedOut s.nmodels (trialErrvals Real.exp s q e R) c = _
  rw [weightedOut_eq, hM, sum_range_one, hw, one_mul]

/-- Witness of C8: two cases, one contender. -/
theorem C8_single_contender_witness :
    (trial Real.exp ⟨2, 1, 1, fun k => k, fun _ => 1, fun _ => 0⟩
        (fun _ => 5) (fun _ => 7) 0 0).2.errvals 0 = 1 ∧
    (trial Real.exp ⟨2, 1, 1, fun k => k, fun _ => 1, fun _ => 0⟩
        (fun _ => 5) (fun _ => 7) 0 0).1 = (fun _ => 7 : Nat → ℝ) 0 :=
  C8_single_contender ⟨2, 1, 1, fun k => k, fun _ => 1, fun _ => 0⟩ (fun _ => 5) (fun _ => 7) 0 0
    rfl (fun _ _ => one_pos)

end GRNNgate

namespace GRNNgate
open Finset

/-! ## `criter` -/

section Criter

variable {α : Type} [LinearOrderedField α]

theorem sigmaStep_eq (ex : α → α) (params : Nat → α) (st : (Nat → α) × α) (i : Nat) :
    sigmaStep ex params st i
      = (Function.update st.1 i (ex (min (max (params i) (-8)) 8)),
         st.2 + 10 * max (|params i| - 8) 0) := by
  unfold sigmaStep
  by_cases h1 : params i > 8
  · have h2 : (-8 : α) ≤ params i := le_trans (by norm_num) (le_of_lt h1)
    have h3 : |params i| = params i := abs_of_nonneg (le_trans (by norm_num) (le_of_lt h1))
    rw [if_pos h1, max_eq_left h2, min_eq_right (le_of_lt h1), h3,
      max_eq_left (by linarith)]
  · rw [if_neg h1]
    have h1' : params i ≤ 8 := not_lt.mp h1
    by_cases h2 : params i < -8
    · have h3 : |params i| = -params i := abs_of_neg (lt_trans h2 (by norm_num))
      rw [if_pos h2, max_eq_right (le_of_lt h2), min_eq_left (by norm_num), h3,
        max_eq_left (by linarith)]
    · have h2' : -8 ≤ params i := not_lt.mp h2
      have h3 : |params i| - 8 ≤ 0 := by
        have := abs_le.mpr ⟨h2', h1'⟩
        linarith
      rw [if_neg h2, max_eq_left h2', min_eq_left h1', max_eq_right h3, mul_zero, add_zero]

theorem sigmaLoop_aux (ex : α → α) (params sigma : Nat → α) (n : Nat) (a : α) :
    (List.range n).foldl (sigmaStep ex params) (sigma, a)
      = (fun g => if g < n then ex (min (max (params g) (-8)) 8) else sigma g,
         a + ∑ g in range n, 10 * max (|params g| - 8) 0) := by
  induction n with
  | zero => simp
  | succ n ih =>
    rw [List.range_succ, List.foldl_append, ih, List.foldl_cons, List.foldl_nil, sum_range_succ,
      sigmaStep_eq]
    refine Prod.ext ?_ (by simp [add_assoc])
    funext k
    by_cases hk : k = n
    · subst hk; simp
    · have h1 : k < n + 1 ↔ k < n := by omega
      simp [Function.update_noteq hk, h1]

theorem sigmaLoop_fst (ex : α → α) (n : Nat) (params sigma : Nat → α) :
    (sigmaLoop ex n params sigma).1
      = fun g => if g < n then ex (min (max (params g) (-8)) 8) else sigma g := by
  unfold sigmaLoop
  rw [sigmaLoop_aux]

theorem sigmaLoop_snd (ex : α → α) (n : Nat) (params sigma : Nat → α) :
    (sigmaLoop ex n params sigma).2 = ∑ g in range n, 10 * max (|params g| - 8) 0 := by
  unfold sigmaLoop
  rw [sigmaLoop_aux, zero_add]

/-- The value returned by `trial` does not depend on the content of `errvals`
at entry. -/
theorem trial_fst_errvals (ex : α → α) (s : State α) (ev q c : Nat → α) (e R : Int) :
    (trial ex { s with errvals := ev } q c e R).1 = (trial ex s q c e R).1 := by
  rw [trial_fst, trial_fst]
  rfl

/-- The cross validation loop: the object changes in `errvals` only, and the
error is the sum of the squared leave-one-out residuals. -/
theorem cvLoop_aux (ex : α → α) (s : State α) (n : Nat) (a : α) :
    ∃ ev : Nat → α,
      (List.range n).foldl (cvStep ex) (s, a)
        = ({ s with errvals := ev },
           a + ∑ i in range n,
             (caseTarget s i - (trial ex s (caseGate s i) (caseContender s i) (i : Int) 0).1) ^ 2) := by
  induction n with
  | zero => exact ⟨s.errvals, by simp⟩
  | succ n ih =>
    obtain ⟨ev, hev⟩ := ih
    rw [List.range_succ, List.foldl_append, hev, List.foldl_cons, List.foldl_nil, sum_range_succ]
    refine ⟨trialErrvals ex { s with errvals := ev }
      (fun k => s.tset (n * (s.ngates + s.nmodels + 1) + k)) (n : Int) 0, ?_⟩
    unfold cvStep
    simp only
    have hg : (fun k => s.tset (n * (s.ngates + s.nmodels + 1) + k)) = caseGate s n := by
      funext k
      unfold caseGate
      rw [Nat.mul_comm]
    have hc : (fun k => s.tset (n * (s.ngates + s.nmodels + 1) + (s.ngates + k)))
        = caseContender s n := by
      funext k
      unfold caseContender
      rw [Nat.mul_comm]
    have ht : s.tset (n * (s.ngates + s.nmodels + 1) + (s.ngates + s.nmodels))
        = caseTarget s n := by
      unfold caseTarget
      rw [Nat.mul_comm]
    refine Prod.ext ?_ ?_
    · rfl
    · simp only
      rw [hg, hc, ht, trial_fst_errvals]
      ring

theorem criter_snd_sigma (ex : α → α) (s : State α) (params : Nat → α) :
    (criter ex s params).2.sigma
      = fun g => if g < s.ngates then ex (min (max (params g) (-8)) 8) else s.sigma g := by
  unfold criter
  simp only
  obtain ⟨ev, hev⟩ := cvLoop_aux ex { s with sigma := (sigmaLoop ex s.ngates params s.sigma).1 }
    s.ncases 0
  rw [hev]
  simp only
  rw [sigmaLoop_fst]

theorem criter_fst (ex : α → α) (s : State α) (params : Nat → α) :
    (criter ex s params).1
      = (∑ i in range s.ncases,
          (caseTarget s i
            - (trial ex
                { s with sigma := fun g =>
                    if g < s.ngates then ex (min (max (params g) (-8)) 8) else s.sigma g }
                (caseGate s i) (caseContender s i) (i : Int) 0).1) ^ 2) / (s.ncases : α)
        + ∑ g in range s.ngates, 10 * max (|params g| - 8) 0 := by
  unfold criter
  simp only
  obtain ⟨ev, hev⟩ := cvLoop_aux ex { s with sigma := (sigmaLoop ex s.ngates params s.sigma).1 }
    s.ncases 0
  rw [hev]
  simp only
  rw [sigmaLoop_snd, sigmaLoop_fst, zero_add]
  rfl

end Criter

end GRNNgate

namespace GRNNgate
open Finset

/-- C9: after `criter(params)`, every bandwidth `sigma[g]` is
`exp(min(max(params[g], -8), 8))`, hence lies between `exp(-8)` and `exp(8)`
and is strictly positive. -/
theorem C9_sigma_positive_bounded (s : State ℝ) (params : Nat → ℝ) (g : Nat)
    (hg : g < s.ngates) :
    (criter Real.exp s params).2.sigma g = Real.exp (min (max (params g) (-8)) 8) ∧
    Real.exp (-8) ≤ (criter Real.exp s params).2.sigma g ∧
    (criter Real.exp s params).2.sigma g ≤ Real.exp 8 ∧
    0 < (criter Real.exp s params).2.sigma g := by
  have h : (criter Real.exp s params).2.sigma g = Real.exp (min (max (params g) (-8)) 8) := by
    rw [criter_snd_sigma]
    simp only [hg, if_true]
  rw [h]
  refine ⟨rfl, Real.exp_le_exp.mpr ?_, Real.exp_le_exp.mpr (min_le_right _ _), Real.exp_pos _⟩
  exact le_min (le_max_right _ _) (by norm_num)

/-- Witness of C9: one gate with the parameter `9`, beyond the clamp. -/
theorem C9_sigma_positive_bounded_witness :
    (criter Real.exp ⟨2, 1, 1, fun k => k, fun _ => 0, fun _ => 0⟩ (fun _ => 9)).2.sigma 0
      = Real.exp (min (max ((fun _ => 9 : Nat → ℝ) 0) (-8)) 8) ∧
    Real.exp (-8)
      ≤ (criter Real.exp ⟨2, 1, 1, fun k => k, fun _ => 0, fun _ => 0⟩ (fun _ => 9)).2.sigma 0 ∧
    (criter Real.exp ⟨2, 1, 1, fun k => k, fun _ => 0, fun _ => 0⟩ (fun _ => 9)).2.sigma 0
      ≤ Real.exp 8 ∧
    0 < (criter Real.exp ⟨2, 1, 1, fun k => k, fun _ => 0, fun _ => 0⟩ (fun _ => 9)).2.sigma 0 :=
  C9_sigma_positive_bounded ⟨2, 1, 1, fun k => k, fun _ => 0, fun _ => 0⟩ (fun _ => 9) 0
    Nat.zero_lt_one

/-- C10: `criter(params)` returns the mean over the training cases of the
squared leave-one-out residual `(target[i] - trial(gates_i, contenders_i, i, 0))^2`,
where `trial` runs with the bandwidths `exp(clamp(params[g], -8, 8))`, plus the
penalty `sum_g 10 * max(|params[g]| - 8, 0)`; the penalty is `0` exactly when
every component lies in `[-8, 8]`. -/
theorem C10_criter_value (s : State ℝ) (params : Nat → ℝ) :
    (criter Real.exp s params).1
      = (∑ i in range s.ncases,
          (caseTarget s i
            - (trial Real.exp
                { s with sigma := fun g =>
                    if g < s.ngates then Real.exp (min (max (params g) (-8)) 8) else s.sigma g }
                (caseGate s i) (caseContender s i) (i : Int) 0).1) ^ 2) / (s.ncases : ℝ)
        + ∑ g in range s.ngates, 10 * max (|params g| - 8) 0 ∧
    (∑ g in range s.ngates, 10 * max (|params g| - 8) 0 = 0
      ↔ ∀ g, g < s.ngates → -8 ≤ params g ∧ params g ≤ 8) := by
  refine ⟨criter_fst Real.exp s params, ?_⟩
  rw [sum_eq_zero_iff_of_nonneg
    (fun g _ => mul_nonneg (by norm_num) (le_max_right _ _))]
  constructor
  · intro h g hg
    have h1 := h g (mem_range.mpr hg)
    have h2 : max (|params g| - 8) 0 = 0 := by linarith [le_max_right (|params g| - 8) 0]
    have h3 : |params g| - 8 ≤ 0 := by
      rw [← h2]
      exact le_max_left _ _
    have h4 := abs_le.mp (by linarith : |params g| ≤ 8)
    exact h4
  · intro h g hg
    have h1 := h g (mem_range.mp hg)
    have h2 : |params g| ≤ 8 := abs_le.mpr h1
    rw [max_eq_right (by linarith), mul_zero]

end GRNNgate

namespace GRNNgate
open Finset

/-! ## The call without exclusion -/

/-- With `i_exclude = -1` and `n_exclude = 0` the last case `N-1` is at circular
distance `0` of the excluded index and is skipped. -/
theorem caseSkipped_neg_one_last (N : Nat) (hN : 1 ≤ N) :
    caseSkipped N (-1) 0 (N - 1) = true := by
  rw [caseSkipped_iff]
  unfold specDist
  have h : ((N - 1 : Nat) : Int) = (N : Int) - 1 := by omega
  rw [h]
  have h2 : |(N : Int) - 1 - -1| = N := by
    rw [show (N : Int) - 1 - -1 = N by ring]
    exact abs_of_nonneg (Int.natCast_nonneg N)
  rw [h2]
  simp

theorem invErr_zero {α : Type} [LinearOrderedField α] : invErr (0 : α) = 1e30 := by
  unfold invErr
  norm_num

/-- The returned value when there are two contenders and contender `0` has no
accumulated error. -/
theorem trial_two_exact {α : Type} [LinearOrderedField α] (ex : α → α) (s : State α)
    (q c : Nat → α) (e R : Int) (hM : s.nmodels = 2) (h0 : errSum ex s q e R 0 = 0) :
    (trial ex s q c e R).1 = c 0 + rivalWeight (errSum ex s q e R 1) * (c 1 - c 0) := by
  rw [trial_fst, hM]
  simp only [sum_range_succ, sum_range_zero, zero_add, h0, invErr_zero]
  unfold rivalWeight
  have hp := invErr_pos (errSum ex s q e R 1)
  have : (1e30 : α) + invErr (errSum ex s q e R 1) ≠ 0 := by
    have : (0 : α) < 1e30 := by norm_num
    positivity
  field_simp
  ring

/-- C2, evaluation at the failing input: on `lastCaseState`, `trial` with
`i_exclude = -1` and `n_exclude = 0` skips the last case, the only one in which
contender `1` is wrong; both accumulated errors are `0` and the value returned
for the query contenders `[10, 20]` is their mean `15`. -/
theorem C2_last_case_skipped :
    caseSkipped (lastCaseState ℝ).ncases (-1) 0 1 = true ∧
    caseLoop Real.exp (lastCaseState ℝ) (fun _ => 0) (-1) 0
      (zeroErrvals (lastCaseState ℝ).nmodels (lastCaseState ℝ).errvals) 1 = 0 ∧
    (trial Real.exp (lastCaseState ℝ) (fun _ => 0) (query1020 ℝ) (-1) 0).1 = 15 := by
  have hs1 : caseSkipped 2 (-1) 0 1 = true := by decide
  have hs0 : caseSkipped 2 (-1) 0 0 = false := by decide
  have hE : ∀ k, k < 2 → errSum Real.exp (lastCaseState ℝ) (fun _ => 0) (-1) 0 k = 0 := by
    intro k hk
    unfold errSum
    simp only [lastCaseState, sum_range_succ, sum_range_zero, hs0, hs1, zero_add, if_true,
      add_zero, Bool.false_eq_true, if_false]
    unfold caseContender caseTarget
    have : ¬ (1 + k = 6) := by omega
    simp [this]
  refine ⟨hs1, ?_, ?_⟩
  · rw [caseLoop_apply, zeroErrvals_apply, hE 1 (by norm_num)]
    simp [lastCaseState]
  · rw [trial_two_exact _ _ _ _ _ _ rfl (hE 0 (by norm_num)), hE 1 (by norm_num)]
    unfold rivalWeight query1020
    rw [invErr_zero]
    norm_num

end GRNNgate

namespace GRNNgate
open Finset

/-! ## Dominance of an exact contender -/

theorem exp_neg_big_le : Real.exp (-(1e30 : ℝ)) ≤ 1e-30 := by
  rw [Real.exp_neg]
  have h1 : (1e30 : ℝ) ≤ Real.exp 1e30 := by
    have := Real.add_one_le_exp (1e30 : ℝ)
    linarith
  have h2 : (Real.exp 1e30)⁻¹ ≤ (1e30 : ℝ)⁻¹ := inv_anti₀ (by norm_num) h1
  calc (Real.exp 1e30)⁻¹ ≤ (1e30 : ℝ)⁻¹ := h2
    _ = 1e-30 := by norm_num

/-- C5 fails far from the training gates: on `farQueryState` contender `0` is
exact in every case and contender `1` is off by `1` in every case, the
bandwidth is `1`, yet for the query gate `1e15` the kernel value is at most
`1e-30`, contender `1` takes the sentinel as well, and `trial` returns `15`,
at distance `5` of the query contender `10`, above `1e-3` times the spread `10`. -/
theorem C5_far_query_counterexample :
    (∀ i, i < (farQueryState ℝ).ncases →
      caseContender (farQueryState ℝ) i 0 = caseTarget (farQueryState ℝ) i) ∧
    (∃ i, i < (farQueryState ℝ).ncases ∧
      caseContender (farQueryState ℝ) i 1 ≠ caseTarget (farQueryState ℝ) i) ∧
    (∀ g, g < (farQueryState ℝ).ngates → 0 < (farQueryState ℝ).sigma g) ∧
    (trial Real.exp (farQueryState ℝ) (fun _ => 1e15) (query1020 ℝ) (-1) 0).1 = 15 ∧
    ¬ (|(trial Real.exp (farQueryState ℝ) (fun _ => 1e15) (query1020 ℝ) (-1) 0).1
          - query1020 ℝ 0|
        ≤ 1e-3 * |query1020 ℝ 1 - query1020 ℝ 0|) := by
  have hs1 : caseSkipped 2 (-1) 0 1 = true := by decide
  have hs0 : caseSkipped 2 (-1) 0 0 = false := by decide
  have hE0 : errSum Real.exp (farQueryState ℝ) (fun _ => 1e15) (-1) 0 0 = 0 := by
    unfold errSum
    simp only [farQueryState, sum_range_succ, sum_range_zero, hs0, hs1, zero_add, if_true,
      add_zero, Bool.false_eq_true, if_false]
    unfold caseContender caseTarget
    simp
  have hE1 : errSum Real.exp (farQueryState ℝ) (fun _ => 1e15) (-1) 0 1 ≤ 1e-30 := by
    unfold errSum
    simp only [farQueryState, sum_range_succ, sum_range_zero, hs0, hs1, zero_add, if_true,
      add_zero, Bool.false_eq_true, if_false]
    unfold caseKernel caseGate caseContender caseTarget
    simp only [sum_range_succ, sum_range_zero, zero_add]
    norm_num
    have := exp_neg_big_le
    norm_num at this
    exact this
  have hout : (trial Real.exp (farQueryState ℝ) (fun _ => 1e15) (query1020 ℝ) (-1) 0).1 = 15 := by
    rw [trial_two_exact _ _ _ _ _ _ rfl hE0]
    unfold rivalWeight
    have : invErr (errSum Real.exp (farQueryState ℝ) (fun _ => 1e15) (-1) 0 1) = 1e30 := by
      unfold invErr
      rw [if_neg (not_lt.mpr hE1)]
    rw [this]
    unfold query1020
    norm_num
  refine ⟨?_, ⟨0, by decide, ?_⟩, fun _ _ => one_pos, hout, ?_⟩
  · intro i hi
    have hi' : i < 2 := hi
    unfold caseContender caseTarget
    interval_cases i <;> simp [farQueryState]
  · unfold caseContender caseTarget
    simp [farQueryState]
  · rw [hout]
    unfold query1020
    norm_num

/-- C5 as amended: when contender `a` is exact in every training case and, at
the query, the error accumulated by the case loop for every other contender
is at least `M * 1e-27`, the value returned by `trial` with `(-1, 0)` is within
`1e-3 * D` of `c[a]`, for any bound `D` on the distances `|c[k] - c[a]|`. -/
theorem C5_dominance_amended (s : State ℝ) (q c : Nat → ℝ) (a : Nat) (D : ℝ)
    (ha : a < s.nmodels)
    (hexact : ∀ i, i < s.ncases → caseContender s i a = caseTarget s i)
    (_hσ : ∀ g, g < s.ngates → 0 < s.sigma g)
    (hE : ∀ k, k < s.nmodels → k ≠ a →
      (s.nmodels : ℝ) * 1e-27
        ≤ caseLoop Real.exp s q (-1) 0 (zeroErrvals s.nmodels s.errvals) k)
    (hD : ∀ k, k < s.nmodels → |c k - c a| ≤ D) :
    |(trial Real.exp s q c (-1) 0).1 - c a| ≤ 1e-3 * D := by
  have hMpos : (0 : ℝ) < s.nmodels := by
    have : 0 < s.nmodels := by omega
    exact_mod_cast this
  have hM1 : (1 : ℝ) ≤ s.nmodels := by
    have : 1 ≤ s.nmodels := by omega
    exact_mod_cast this
  have hD0 : 0 ≤ D := by
    have := hD a ha
    rw [sub_self, abs_zero] at this
    exact this
  have hEa : errSum Real.exp s q (-1) 0 a = 0 := by
    unfold errSum
    refine sum_eq_zero (fun i hi => ?_)
    rw [hexact i (mem_range.mp hi), sub_self]
    simp
  have hE' : ∀ k, k < s.nmodels → k ≠ a →
      (s.nmodels : ℝ) * 1e-27 ≤ errSum Real.exp s q (-1) 0 k := by
    intro k hk hka
    have := hE k hk hka
    rw [caseLoop_apply, if_pos hk, zeroErrvals_apply, if_pos hk, zero_add] at this
    exact this
  have hS : (1e30 : ℝ) ≤ ∑ j in range s.nmodels, invErr (errSum Real.exp s q (-1) 0 j) := by
    have h1 := single_le_sum (f := fun j => invErr (errSum Real.exp s q (-1) 0 j))
      (fun j _ => le_of_lt (invErr_pos _)) (mem_range.mpr ha)
    simp only [hEa, invErr_zero] at h1
    exact h1
  have hSpos : (0 : ℝ) < ∑ j in range s.nmodels, invErr (errSum Real.exp s q (-1) 0 j) :=
    lt_of_lt_of_le (by norm_num) hS
  have hw : ∀ k, k < s.nmodels → k ≠ a →
      invErr (errSum Real.exp s q (-1) 0 k)
        / (∑ j in range s.nmodels, invErr (errSum Real.exp s q (-1) 0 j))
        ≤ 1e-3 / (s.nmodels : ℝ) := by
    intro k hk hka
    have h1 := hE' k hk hka
    have h2 : (1e-27 : ℝ) ≤ errSum Real.exp s q (-1) 0 k := by nlinarith
    have h3 : invErr (errSum Real.exp s q (-1) 0 k) = 1 / errSum Real.exp s q (-1) 0 k := by
      unfold invErr
      rw [if_pos (lt_of_lt_of_le (by norm_num) h2)]
    have h4 : 1 / errSum Real.exp s q (-1) 0 k ≤ 1 / ((s.nmodels : ℝ) * 1e-27) :=
      one_div_le_one_div_of_le (by positivity) h1
    rw [h3, div_le_div_iff₀ hSpos hMpos]
    have h5 : 1 / ((s.nmodels : ℝ) * 1e-27) * (s.nmodels : ℝ) = 1e27 := by
      have hne : (s.nmodels : ℝ) ≠ 0 := ne_of_gt hMpos
      rw [one_div, mul_inv, mul_comm ((s.nmodels : ℝ)⁻¹), mul_assoc, inv_mul_cancel₀ hne]
      norm_num
    have h6 : 1 / errSum Real.exp s q (-1) 0 k * (s.nmodels : ℝ) ≤ 1e27 := by
      rw [← h5]
      exact mul_le_mul_of_nonneg_right h4 (le_of_lt hMpos)
    calc 1 / errSum Real.exp s q (-1) 0 k * (s.nmodels : ℝ) ≤ 1e27 := h6
      _ = 1e-3 * 1e30 := by norm_num
      _ ≤ 1e-3 * ∑ j in range s.nmodels, invErr (errSum Real.exp s q (-1) 0 j) :=
          mul_le_mul_of_nonneg_left hS (by norm_num)
  have hsum1 : ∑ k in range s.nmodels,
      invErr (errSum Real.exp s q (-1) 0 k)
        / (∑ j in range s.nmodels, invErr (errSum Real.exp s q (-1) 0 j)) = 1 := by
    rw [← sum_div]
    exact div_self (ne_of_gt hSpos)
  have hdiff : (trial Real.exp s q c (-1) 0).1 - c a
      = ∑ k in range s.nmodels,
          invErr (errSum Real.exp s q (-1) 0 k)
            / (∑ j in range s.nmodels, invErr (errSum Real.exp s q (-1) 0 j))
            * (c k - c a) := by
    rw [trial_fst]
    simp only [mul_sub]
    rw [sum_sub_distrib, ← sum_mul, hsum1, one_mul]
  rw [hdiff]
  calc |∑ k in range s.nmodels,
          invErr (errSum Real.exp s q (-1) 0 k)
            / (∑ j in range s.nmodels, invErr (errSum Real.exp s q (-1) 0 j))
            * (c k - c a)|
      ≤ ∑ k in range s.nmodels,
          |invErr (errSum Real.exp s q (-1) 0 k)
            / (∑ j in range s.nmodels, invErr (errSum Real.exp s q (-1) 0 j))
            * (c k - c a)| := abs_sum_le_sum_abs _ _
    _ ≤ ∑ _k in range s.nmodels, 1e-3 / (s.nmodels : ℝ) * D := by
        refine sum_le_sum (fun k hk => ?_)
        have hk' := mem_range.mp hk
        rw [abs_mul, abs_of_nonneg (div_nonneg (le_of_lt (invErr_pos _)) (le_of_lt hSpos))]
        by_cases hka : k = a
        · subst hka
          rw [sub_self, abs_zero, mul_zero]
          positivity
        · exact mul_le_mul (hw k hk' hka) (hD k hk') (abs_nonneg _) (by positivity)
    _ = 1e-3 * D := by
        rw [sum_const, card_range, nsmul_eq_mul]
        field_simp

/-- Witness of C5 as amended: on `farQueryState` with the query gate `0`, at
the training gates, contender `1` accumulates the error `1`. -/
theorem C5_dominance_amended_witness :
    |(trial Real.exp (farQueryState ℝ) (fun _ => 0) (query1020 ℝ) (-1) 0).1 - query1020 ℝ 0|
      ≤ 1e-3 * 10 := by
  have hs1 : caseSkipped 2 (-1) 0 1 = true := by decide
  have hs0 : caseSkipped 2 (-1) 0 0 = false := by decide
  refine C5_dominance_amended (farQueryState ℝ) (fun _ => 0) (query1020 ℝ) 0 10
    (by decide) ?_ (fun _ _ => one_pos) ?_ ?_
  · intro i hi
    have hi' : i < 2 := hi
    unfold caseContender caseTarget
    interval_cases i <;> simp [farQueryState]
  · intro k hk hka
    have hk' : k < 2 := hk
    have hk1 : k = 1 := by omega
    subst hk1
    rw [caseLoop_apply, if_pos hk, zeroErrvals_apply, if_pos hk, zero_add]
    unfold errSum
    simp only [farQueryState, sum_range_succ, sum_range_zero, hs0, hs1, zero_add, if_true,
      add_zero, Bool.false_eq_true, if_false]
    unfold caseKernel caseGate caseContender caseTarget
    simp only [sum_range_succ, sum_range_zero, zero_add]
    norm_num
  · intro k hk
    have hk' : k < 2 := hk
    unfold query1020
    interval_cases k <;> norm_num

end GRNNgate

namespace GRNNgate
open Finset

/-! ## The concrete scenario -/

section Scenario

variable {α : Type} [LinearOrderedField α]

/-- What `trial` reads in the packed training set of the scenario. -/
theorem scen_reads (raw f ev : Nat → α) (i : Nat) (hi : i < 4) :
    caseGate (scenarioState raw f ev) i 0 = (i : α) ∧
    caseContender (scenarioState raw f ev) i 0 = (i : α) ∧
    caseContender (scenarioState raw f ev) i 1 = (i : α) + 5 ∧
    caseTarget (scenarioState raw f ev) i = (i : α) := by
  have hpack := packLoop_inv 1 2 (scenGates α) (scenContenders α) (scenTarget α) raw 4
  simp only at hpack
  obtain ⟨-, hg, hc, ht⟩ := hpack
  refine ⟨?_, ?_, ?_, ?_⟩
  · have := hg i hi 0 Nat.zero_lt_one
    unfold caseGate scenarioState packTset
    simp only
    rw [this]
    simp [scenGates]
  · have := hc i hi 0 (by norm_num)
    unfold caseContender scenarioState packTset
    simp only
    rw [this]
    simp [scenContenders]
  · have := hc i hi 1 (by norm_num)
    unfold caseContender scenarioState packTset
    simp only
    rw [this]
    have h1 : (i * 2 + 1) % 2 = 1 := by omega
    have h2 : (i * 2 + 1) / 2 = i := by omega
    simp [scenContenders, h1, h2]
  · have := ht i hi
    unfold caseTarget scenarioState packTset
    simp only
    rw [this]
    rfl

theorem scen_errSum_zero (ex : α → α) (raw f ev q : Nat → α) (e R : Int) :
    errSum ex (scenarioState raw f ev) q e R 0 = 0 := by
  unfold errSum
  refine sum_eq_zero (fun i hi => ?_)
  have hi' : i < 4 := mem_range.mp hi
  obtain ⟨-, h0, -, ht⟩ := scen_reads raw f ev i hi'
  rw [h0, ht, sub_self]
  simp

theorem scen_errSum_one (ex : α → α) (raw f ev q : Nat → α) (e : Int) :
    errSum ex (scenarioState raw f ev) q e 0 1 = scenErr ex (f 0) (q 0) e := by
  unfold errSum scenErr
  refine sum_congr rfl (fun i hi => ?_)
  have hi' : i < 4 := mem_range.mp hi
  obtain ⟨hg, -, h1, ht⟩ := scen_reads raw f ev i hi'
  rw [h1, ht]
  unfold caseKernel
  have : (scenarioState raw f ev).ngates = 1 := rfl
  rw [this, sum_range_one, hg]
  have h25 : ((i : α) + 5 - (i : α)) ^ 2 = 25 := by ring
  rw [h25]
  rfl

/-- The value returned by `trial` on the scenario, with exclusion radius `0`. -/
theorem scen_trial (ex : α → α) (raw f ev q c : Nat → α) (e : Int) :
    (trial ex (scenarioState raw f ev) q c e 0).1
      = c 0 + rivalWeight (scenErr ex (f 0) (q 0) e) * (c 1 - c 0) := by
  rw [trial_two_exact ex _ q c e 0 rfl (scen_errSum_zero ex raw f ev q e 0), scen_errSum_one]

/-- The value returned by `criter` on the scenario. -/
theorem scen_criter (ex : α → α) (raw f ev : Nat → α) (p : α) :
    (criter ex (scenarioState raw f ev) (fun _ => p)).1
      = (∑ i in range 4,
          25 * rivalWeight (scenErr ex (ex (min (max p (-8)) 8)) (i : α) (i : Int)) ^ 2) / 4
        + 10 * max (|p| - 8) 0 := by
  rw [criter_fst]
  show (∑ i in range 4,
      (caseTarget (scenarioState raw f ev) i
        - (trial ex (scenarioState raw (fun g => if g < 1 then ex (min (max p (-8)) 8) else f g) ev)
            (caseGate (scenarioState raw f ev) i) (caseContender (scenarioState raw f ev) i)
            (i : Int) 0).1) ^ 2) / ((4 : Nat) : α)
      + ∑ g in range 1, 10 * max (|p| - 8) 0 = _
  rw [sum_range_one]
  congr 1
  have h4 : ((4 : Nat) : α) = 4 := by norm_num
  rw [h4]
  congr 1
  refine sum_congr rfl (fun i hi => ?_)
  have hi' : i < 4 := mem_range.mp hi
  obtain ⟨hg, h0, h1, ht⟩ := scen_reads raw f ev i hi'
  rw [scen_trial, h0, h1, hg, ht]
  simp only [Nat.lt_one_iff, if_true]
  ring

end Scenario

end GRNNgate

namespace GRNNgate
open Finset

theorem criter_snd_eq {α : Type} [LinearOrderedField α] (ex : α → α) (s : State α)
    (params : Nat → α) :
    ∃ ev : Nat → α, (criter ex s params).2
      = { s with
          sigma := fun g => if g < s.ngates then ex (min (max (params g) (-8)) 8) else s.sigma g
          errvals := ev } := by
  unfold criter
  simp only
  obtain ⟨ev, hev⟩ := cvLoop_aux ex { s with sigma := (sigmaLoop ex s.ngates params s.sigma).1 }
    s.ncases 0
  refine ⟨ev, ?_⟩
  rw [hev]
  simp only
  rw [sigmaLoop_fst]

theorem invErr_antitone {x y : ℝ} (h : x ≤ y) : invErr y ≤ invErr x := by
  unfold invErr
  by_cases hy : y > 1e-30
  · rw [if_pos hy]
    by_cases hx : x > 1e-30
    · rw [if_pos hx]
      exact one_div_le_one_div_of_le (lt_trans (by norm_num) hx) h
    · rw [if_neg hx]
      have : 1 / y ≤ 1 / (1e-30 : ℝ) := one_div_le_one_div_of_le (by norm_num) (le_of_lt hy)
      calc 1 / y ≤ 1 / (1e-30 : ℝ) := this
        _ = 1e30 := by norm_num
  · have hx : ¬ x > 1e-30 := fun hx => hy (lt_of_lt_of_le hx h)
    rw [if_neg hy, if_neg hx]

theorem rivalWeight_pos (E : ℝ) : 0 < rivalWeight E := by
  unfold rivalWeight
  have := invErr_pos E
  have h30 : (0 : ℝ) < 1e30 := by norm_num
  positivity

theorem rivalWeight_antitone {x y : ℝ} (h : x ≤ y) : rivalWeight y ≤ rivalWeight x := by
  unfold rivalWeight
  have hx := invErr_pos x
  have hy := invErr_pos y
  have hxy := invErr_antitone h
  have h30 : (0 : ℝ) < 1e30 := by norm_num
  rw [div_le_div_iff₀ (by positivity) (by positivity)]
  nlinarith

theorem rivalWeight_le {c E : ℝ} (hc : 1e-30 < c) (h : c ≤ E) :
    rivalWeight E ≤ 1 / (1e30 * c) := by
  refine le_trans (rivalWeight_antitone h) ?_
  unfold rivalWeight invErr
  rw [if_pos hc]
  have hc0 : 0 < c := lt_trans (by norm_num) hc
  have h30 : (0 : ℝ) < 1e30 := by norm_num
  rw [div_le_div_iff₀ (by positivity) (by positivity)]
  have : 0 < 1 / c := by positivity
  have h1 : 1 / c * c = 1 := by field_simp
  nlinarith

theorem two_le_of_rivalWeight_le {E : ℝ} (h : rivalWeight E ≤ 4e-31) : 2 ≤ E := by
  by_contra hlt
  have h2 := rivalWeight_antitone (le_of_lt (not_le.mp hlt))
  have h3 : rivalWeight (2 : ℝ) = 1 / 2 / (1e30 + 1 / 2) := by
    unfold rivalWeight invErr
    rw [if_pos (by norm_num)]
  rw [h3] at h2
  have h4 : (4e-31 : ℝ) < 1 / 2 / (1e30 + 1 / 2) := by norm_num
  linarith

/-- The kernel value grows when the scaled distance shrinks. -/
theorem kernel_le_of_sq_le {d₁ d₂ σ₁ σ₂ : ℝ} (h : (d₁ / σ₁) ^ 2 ≤ (d₂ / σ₂) ^ 2) :
    Real.exp (-((d₂ / σ₂) ^ 2)) ≤ Real.exp (-((d₁ / σ₁) ^ 2)) :=
  Real.exp_le_exp.mpr (neg_le_neg h)

theorem kernel_mono_sigma (d : ℝ) {σ σ' : ℝ} (hσ : 0 < σ) (h : σ ≤ σ') :
    Real.exp (-((d / σ) ^ 2)) ≤ Real.exp (-((d / σ') ^ 2)) := by
  apply kernel_le_of_sq_le
  rw [div_pow, div_pow]
  exact div_le_div_of_nonneg_left (sq_nonneg d) (by positivity)
    (pow_le_pow_left₀ (le_of_lt hσ) h 2)

theorem kernel_mono_sq {d₁ d₂ : ℝ} (σ : ℝ) (h : d₁ ^ 2 ≤ d₂ ^ 2) :
    Real.exp (-((d₂ / σ) ^ 2)) ≤ Real.exp (-((d₁ / σ) ^ 2)) := by
  apply kernel_le_of_sq_le
  rw [div_pow, div_pow]
  exact div_le_div_of_nonneg_right h (sq_nonneg σ)

theorem scenErr_mono (x : ℝ) (e : Int) {σ σ' : ℝ} (hσ : 0 < σ) (h : σ ≤ σ') :
    scenErr Real.exp σ x e ≤ scenErr Real.exp σ' x e := by
  unfold scenErr
  refine sum_le_sum (fun i _ => ?_)
  split_ifs
  · exact le_refl 0
  · exact mul_le_mul_of_nonneg_right (kernel_mono_sigma _ hσ h) (by norm_num)

end GRNNgate

namespace GRNNgate
open Finset

/-- The leave-one-out error of case `1` of the scenario, expanded. -/
theorem scenErr_case_one (σ : ℝ) :
    scenErr Real.exp σ 1 1
      = 25 * (Real.exp (-((1 / σ) ^ 2)) + Real.exp (-((-1 / σ) ^ 2))
              + Real.exp (-((-2 / σ) ^ 2))) := by
  have h0 : caseSkipped 4 1 0 0 = false := by decide
  have h1 : caseSkipped 4 1 0 1 = true := by decide
  have h2 : caseSkipped 4 1 0 2 = false := by decide
  have h3 : caseSkipped 4 1 0 3 = false := by decide
  unfold scenErr
  simp only [sum_range_succ, sum_range_zero, h0, h1, h2, h3, zero_add, if_true, add_zero,
    Bool.false_eq_true, if_false, Nat.cast_zero, Nat.cast_one, Nat.cast_ofNat, sub_zero]
  norm_num
  ring

/-- The error of contender `1` for the query gate `1.5` and the call
`trial ( .. , -1 , 0 )`, expanded: case `3` is skipped. -/
theorem scenErr_query (σ : ℝ) :
    scenErr Real.exp σ 1.5 (-1)
      = 25 * (Real.exp (-((1.5 / σ) ^ 2)) + Real.exp (-((0.5 / σ) ^ 2))
              + Real.exp (-((-0.5 / σ) ^ 2))) := by
  have h0 : caseSkipped 4 (-1) 0 0 = false := by decide
  have h1 : caseSkipped 4 (-1) 0 1 = false := by decide
  have h2 : caseSkipped 4 (-1) 0 2 = false := by decide
  have h3 : caseSkipped 4 (-1) 0 3 = true := by decide
  unfold scenErr
  simp only [sum_range_succ, sum_range_zero, h0, h1, h2, h3, zero_add, if_true, add_zero,
    Bool.false_eq_true, if_false, Nat.cast_zero, Nat.cast_one, Nat.cast_ofNat, sub_zero]
  norm_num
  ring

theorem scenErr_query_ge (σ : ℝ) :
    2 / 3 * scenErr Real.exp σ 1 1 ≤ scenErr Real.exp σ 1.5 (-1) := by
  rw [scenErr_case_one, scenErr_query]
  have a1 : Real.exp (-((-1 / σ) ^ 2)) ≤ Real.exp (-((1 / σ) ^ 2)) :=
    kernel_mono_sq σ (by norm_num)
  have a2 : Real.exp (-((-2 / σ) ^ 2)) ≤ Real.exp (-((1 / σ) ^ 2)) :=
    kernel_mono_sq σ (by norm_num)
  have b1 : Real.exp (-((1 / σ) ^ 2)) ≤ Real.exp (-((0.5 / σ) ^ 2)) :=
    kernel_mono_sq σ (by norm_num)
  have b2 : Real.exp (-((1 / σ) ^ 2)) ≤ Real.exp (-((-0.5 / σ) ^ 2)) :=
    kernel_mono_sq σ (by norm_num)
  have b3 := Real.exp_pos (-((1.5 / σ) ^ 2))
  linarith

theorem exp_neg_one_ge : (1 : ℝ) / 3 ≤ Real.exp (-1) := by
  rw [Real.exp_neg, one_div]
  have h := Real.exp_one_lt_d9
  exact inv_anti₀ (Real.exp_pos 1) (by linarith)

/-- With unit bandwidth every leave-one-out error of the scenario is at least
`25/3`: every case has a neighbour at gate distance `1`. -/
theorem scenErr_unit_ge (i : Nat) (hi : i < 4) :
    25 / 3 ≤ scenErr Real.exp 1 (i : ℝ) (i : Int) := by
  have hone := exp_neg_one_ge
  have h4 := Real.exp_pos (-4)
  have h9 := Real.exp_pos (-9)
  unfold scenErr
  interval_cases i
  · have h0 : caseSkipped 4 ((0 : Nat) : Int) 0 0 = true := by decide
    have h1 : caseSkipped 4 ((0 : Nat) : Int) 0 1 = false := by decide
    have h2 : caseSkipped 4 ((0 : Nat) : Int) 0 2 = false := by decide
    have h3 : caseSkipped 4 ((0 : Nat) : Int) 0 3 = false := by decide
    simp only [sum_range_succ, sum_range_zero, h0, h1, h2, h3, zero_add, if_true, add_zero,
      Bool.false_eq_true, if_false]
    norm_num
    linarith
  · have h0 : caseSkipped 4 ((1 : Nat) : Int) 0 0 = false := by decide
    have h1 : caseSkipped 4 ((1 : Nat) : Int) 0 1 = true := by decide
    have h2 : caseSkipped 4 ((1 : Nat) : Int) 0 2 = false := by decide
    have h3 : caseSkipped 4 ((1 : Nat) : Int) 0 3 = false := by decide
    simp only [sum_range_succ, sum_range_zero, h0, h1, h2, h3, zero_add, if_true, add_zero,
      Bool.false_eq_true, if_false]
    norm_num
    linarith
  · have h0 : caseSkipped 4 ((2 : Nat) : Int) 0 0 = false := by decide
    have h1 : caseSkipped 4 ((2 : Nat) : Int) 0 1 = false := by decide
    have h2 : caseSkipped 4 ((2 : Nat) : Int) 0 2 = true := by decide
    have h3 : caseSkipped 4 ((2 : Nat) : Int) 0 3 = false := by decide
    simp only [sum_range_succ, sum_range_zero, h0, h1, h2, h3, zero_add, if_true, add_zero,
      Bool.false_eq_true, if_false]
    norm_num
    linarith
  · have h0 : caseSkipped 4 ((3 : Nat) : Int) 0 0 = false := by decide
    have h1 : caseSkipped 4 ((3 : Nat) : Int) 0 1 = false := by decide
    have h2 : caseSkipped 4 ((3 : Nat) : Int) 0 2 = false := by decide
    have h3 : caseSkipped 4 ((3 : Nat) : Int) 0 3 = true := by decide
    simp only [sum_range_succ, sum_range_zero, h0, h1, h2, h3, zero_add, if_true, add_zero,
      Bool.false_eq_true, if_false]
    norm_num
    linarith

end GRNNgate

namespace GRNNgate
open Finset

/-- The objective of the fitter on the scenario, inside the scan interval. -/
theorem scen_objective (raw f ev : Nat → ℝ) (p : ℝ) (h1 : -3 ≤ p) (h2 : p ≤ 3) :
    (univar_criter Real.exp (scenarioState raw f ev) p).1
      = (∑ i in range 4,
          25 * rivalWeight (scenErr Real.exp (Real.exp p) (i : ℝ) (i : Int)) ^ 2) / 4 := by
  show (criter Real.exp (scenarioState raw f ev) (fun _ => p)).1 = _
  rw [scen_criter, max_eq_left (by linarith : (-8 : ℝ) ≤ p), min_eq_left (by linarith : p ≤ 8)]
  have h3 : |p| ≤ 3 := abs_le.mpr ⟨h1, h2⟩
  rw [max_eq_right (by linarith : |p| - 8 ≤ 0), mul_zero, add_zero]

/-- The objective at the parameter `0` (unit bandwidth) is tiny. -/
theorem scen_objective_zero_le :
    (∑ i in range 4, 25 * rivalWeight (scenErr Real.exp 1 (i : ℝ) (i : Int)) ^ 2) / 4
      ≤ 3.6e-61 := by
  have hterm : ∀ i ∈ range 4,
      25 * rivalWeight (scenErr Real.exp 1 (i : ℝ) (i : Int)) ^ 2 ≤ 3.6e-61 := by
    intro i hi
    have hw := rivalWeight_le (c := 25 / 3) (by norm_num) (scenErr_unit_ge i (mem_range.mp hi))
    have hw0 := rivalWeight_pos (scenErr Real.exp 1 (i : ℝ) (i : Int))
    have hsq := pow_le_pow_left₀ (le_of_lt hw0) hw 2
    calc 25 * rivalWeight (scenErr Real.exp 1 (i : ℝ) (i : Int)) ^ 2
        ≤ 25 * (1 / (1e30 * (25 / 3))) ^ 2 := mul_le_mul_of_nonneg_left hsq (by norm_num)
      _ = 3.6e-61 := by norm_num
  have := sum_le_sum hterm
  rw [sum_const, card_range, nsmul_eq_mul] at this
  rw [div_le_iff₀ (by norm_num)]
  calc _ ≤ ((4 : Nat) : ℝ) * 3.6e-61 := this
    _ = 3.6e-61 * 4 := by norm_num

/-- C6: on the scenario `N=4, G=1, M=2`, for every parameter `p` of the scan
interval `[-3, 3]` at which the objective `univar_criter` is minimal over that
interval, the combiner left by the final call `criter(params)` with
`params[0] = p` predicts, for the query gate `1.5` and the query contenders
`[10, 20]`, a value within `1e-3` of `10`. -/
theorem C6_concrete_scenario (raw sigma ev : Nat → ℝ) (p : ℝ) (hp1 : -3 ≤ p) (hp2 : p ≤ 3)
    (hmin : ∀ p' : ℝ, -3 ≤ p' → p' ≤ 3 →
      (univar_criter Real.exp (scenarioState raw sigma ev) p).1
        ≤ (univar_criter Real.exp (scenarioState raw sigma ev) p').1) :
    |(trial Real.exp (criter Real.exp (scenarioState raw sigma ev) (fun _ => p)).2
        (fun _ => 1.5) (query1020 ℝ) (-1) 0).1 - 10| ≤ 1e-3 := by
  have h0 := hmin 0 (by norm_num) (by norm_num)
  rw [scen_objective raw sigma ev p hp1 hp2, scen_objective raw sigma ev 0 (by norm_num)
    (by norm_num), Real.exp_zero] at h0
  have hJ := le_trans h0 scen_objective_zero_le
  rw [div_le_iff₀ (by norm_num)] at hJ
  have hone := single_le_sum
    (f := fun i : Nat => 25 * rivalWeight (scenErr Real.exp (Real.exp p) (i : ℝ) (i : Int)) ^ 2)
    (fun i _ => by positivity) (mem_range.mpr (show 1 < 4 by norm_num))
  simp only [Nat.cast_one] at hone
  have hw0 := rivalWeight_pos (scenErr Real.exp (Real.exp p) 1 1)
  have hw1 : rivalWeight (scenErr Real.exp (Real.exp p) 1 1) ≤ 4e-31 := by
    by_contra hgt
    have hgt' := not_le.mp hgt
    have : (4e-31 : ℝ) ^ 2 < rivalWeight (scenErr Real.exp (Real.exp p) 1 1) ^ 2 :=
      pow_lt_pow_left₀ hgt' (by norm_num) (by norm_num)
    have h61 : (25 : ℝ) * (4e-31) ^ 2 > 3.6e-61 * 4 := by norm_num
    linarith
  have hE1 := two_le_of_rivalWeight_le hw1
  have hEq := scenErr_query_ge (Real.exp p)
  have hEq1 : (1 : ℝ) ≤ scenErr Real.exp (Real.exp p) 1.5 (-1) := by linarith
  have hwq := rivalWeight_le (c := 1) (by norm_num) hEq1
  have hwq0 := rivalWeight_pos (scenErr Real.exp (Real.exp p) 1.5 (-1))
  obtain ⟨ev', hev'⟩ := criter_snd_eq Real.exp (scenarioState raw sigma ev) (fun _ => p)
  rw [hev']
  show |(trial Real.exp
      (scenarioState raw (fun g => if g < 1 then Real.exp (min (max p (-8)) 8) else sigma g) ev')
      (fun _ => 1.5) (query1020 ℝ) (-1) 0).1 - 10| ≤ 1e-3
  rw [scen_trial]
  simp only [Nat.lt_one_iff, if_true, query1020, one_ne_zero, if_false]
  rw [max_eq_left (by linarith : (-8 : ℝ) ≤ p), min_eq_left (by linarith : p ≤ 8)]
  have h10 : (10 : ℝ) + rivalWeight (scenErr Real.exp (Real.exp p) 1.5 (-1)) * (20 - 10) - 10
      = 10 * rivalWeight (scenErr Real.exp (Real.exp p) 1.5 (-1)) := by ring
  rw [h10, abs_of_pos (by positivity)]
  calc 10 * rivalWeight (scenErr Real.exp (Real.exp p) 1.5 (-1))
      ≤ 10 * (1 / (1e30 * 1)) := mul_le_mul_of_nonneg_left hwq (by norm_num)
    _ ≤ 1e-3 := by norm_num

/-- Witness of C6: the parameter `3`, the right end of the scan interval, is a
minimiser of the objective, which decreases as the bandwidth grows. -/
theorem C6_concrete_scenario_witness :
    |(trial Real.exp
        (criter Real.exp (scenarioState (fun _ => 0) (fun _ => 0) (fun _ => 0)) (fun _ => 3)).2
        (fun _ => 1.5) (query1020 ℝ) (-1) 0).1 - 10| ≤ 1e-3 := by
  refine C6_concrete_scenario (fun _ => 0) (fun _ => 0) (fun _ => 0) 3 (by norm_num)
    (by norm_num) ?_
  intro p' h1 h2
  rw [scen_objective _ _ _ 3 (by norm_num) (by norm_num), scen_objective _ _ _ p' h1 h2]
  refine div_le_div_of_nonneg_right (sum_le_sum (fun i _ => ?_)) (by norm_num)
  refine mul_le_mul_of_nonneg_left ?_ (by norm_num)
  exact pow_le_pow_left₀ (le_of_lt (rivalWeight_pos _))
    (rivalWeight_antitone (scenErr_mono _ _ (Real.exp_pos p') (Real.exp_le_exp.mpr h2))) 2

end GRNNgate

namespace GRNNgate
open Finset

/-! ## Order and range of the weights -/

theorem invErr_le_sentinel (x : ℝ) : invErr x ≤ 1e30 := by
  unfold invErr
  split_ifs with h
  · have : 1 / x ≤ 1 / (1e-30 : ℝ) := one_div_le_one_div_of_le (by norm_num) (le_of_lt h)
    calc 1 / x ≤ 1 / (1e-30 : ℝ) := this
      _ = 1e30 := by norm_num
  · exact le_refl _

/-- The value of `errvals[k]` at the end of the case loop of `trial`. -/
theorem caseLoop_zero_apply {α : Type} [LinearOrderedField α] (ex : α → α) (s : State α)
    (q : Nat → α) (e R : Int) (k : Nat) (hk : k < s.nmodels) :
    caseLoop ex s q e R (zeroErrvals s.nmodels s.errvals) k = errSum ex s q e R k := by
  rw [caseLoop_apply, if_pos hk, zeroErrvals_apply, if_pos hk, zero_add]

/-- The weight of contender `k` left in `errvals` by `trial`. -/
theorem trial_weight {α : Type} [LinearOrderedField α] (ex : α → α) (s : State α)
    (q c : Nat → α) (e R : Int) (k : Nat) (hk : k < s.nmodels) :
    (trial ex s q c e R).2.errvals k
      = invErr (errSum ex s q e R k) / ∑ j in range s.nmodels, invErr (errSum ex s q e R j) := by
  show trialErrvals ex s q e R k = _
  rw [trialErrvals_apply, if_pos hk]

/-- C14: in every call of `trial`, if the errors accumulated by the case loop
satisfy `E[a] <= E[b]` then the final weights satisfy `w[a] >= w[b]`; and a
contender that takes the sentinel (`E[a] <= 1e-30`) has a weight at least as
large as that of every contender. -/
theorem C14_weight_order (s : State ℝ) (q c : Nat → ℝ) (e R : Int) (a b : Nat)
    (ha : a < s.nmodels) (hb : b < s.nmodels)
    (hE : caseLoop Real.exp s q e R (zeroErrvals s.nmodels s.errvals) a
        ≤ caseLoop Real.exp s q e R (zeroErrvals s.nmodels s.errvals) b) :
    (trial Real.exp s q c e R).2.errvals b ≤ (trial Real.exp s q c e R).2.errvals a ∧
    (caseLoop Real.exp s q e R (zeroErrvals s.nmodels s.errvals) a ≤ 1e-30 →
      ∀ k, k < s.nmodels →
        (trial Real.exp s q c e R).2.errvals k ≤ (trial Real.exp s q c e R).2.errvals a) := by
  have hp := psum_pos Real.exp s q e R (by omega)
  rw [caseLoop_zero_apply _ _ _ _ _ _ ha, caseLoop_zero_apply _ _ _ _ _ _ hb] at hE
  rw [caseLoop_zero_apply _ _ _ _ _ _ ha, trial_weight _ _ _ _ _ _ _ ha,
    trial_weight _ _ _ _ _ _ _ hb]
  refine ⟨div_le_div_of_nonneg_right (invErr_antitone hE) (le_of_lt hp), fun hs k hk => ?_⟩
  rw [trial_weight _ _ _ _ _ _ _ hk]
  refine div_le_div_of_nonneg_right ?_ (le_of_lt hp)
  have : invErr (errSum Real.exp s q e R a) = 1e30 := by
    unfold invErr
    rw [if_neg (not_lt.mpr hs)]
  rw [this]
  exact invErr_le_sentinel _

/-- Witness of C14: on `farQueryState` at the query gate `0`, contender `0` has
no accumulated error and contender `1` has some. -/
theorem C14_weight_order_witness :
    (trial Real.exp (farQueryState ℝ) (fun _ => 0) (query1020 ℝ) (-1) 0).2.errvals 1
      ≤ (trial Real.exp (farQueryState ℝ) (fun _ => 0) (query1020 ℝ) (-1) 0).2.errvals 0 := by
  have hs1 : caseSkipped 2 (-1) 0 1 = true := by decide
  have hs0 : caseSkipped 2 (-1) 0 0 = false := by decide
  refine (C14_weight_order (farQueryState ℝ) (fun _ => 0) (query1020 ℝ) (-1) 0 0 1
    (by decide) (by decide) ?_).1
  rw [caseLoop_zero_apply _ _ _ _ _ _ (show 0 < (farQueryState ℝ).nmodels by decide),
    caseLoop_zero_apply _ _ _ _ _ _ (show 1 < (farQueryState ℝ).nmodels by decide)]
  unfold errSum
  simp only [farQueryState, sum_range_succ, sum_range_zero, hs0, hs1, zero_add, if_true,
    add_zero, Bool.false_eq_true, if_false]
  unfold caseKernel caseGate caseContender caseTarget
  simp only [sum_range_succ, sum_range_zero, zero_add]
  norm_num

/-- C15: for `M >= 1` and positive bandwidths the value returned by `trial` lies
between the least and the greatest of the query contenders `c[0..M)`; if they
all equal `v`, the value is `v`. -/
theorem C15_convex_combination (s : State ℝ) (q c : Nat → ℝ) (e R : Int)
    (hM : 1 ≤ s.nmodels) (_hσ : ∀ g, g < s.ngates → 0 < s.sigma g) :
    (range s.nmodels).inf' (nonempty_range_iff.mpr (by omega)) c
        ≤ (trial Real.exp s q c e R).1 ∧
    (trial Real.exp s q c e R).1
        ≤ (range s.nmodels).sup' (nonempty_range_iff.mpr (by omega)) c ∧
    (∀ v : ℝ, (∀ k, k < s.nmodels → c k = v) → (trial Real.exp s q c e R).1 = v) := by
  have hp := psum_pos Real.exp s q e R hM
  have hsum1 : ∑ k in range s.nmodels,
      invErr (errSum Real.exp s q e R k)
        / (∑ j in range s.nmodels, invErr (errSum Real.exp s q e R j)) = 1 := by
    rw [← sum_div]
    exact div_self (ne_of_gt hp)
  have hw0 : ∀ k, 0 ≤ invErr (errSum Real.exp s q e R k)
      / (∑ j in range s.nmodels, invErr (errSum Real.exp s q e R j)) :=
    fun k => div_nonneg (le_of_lt (invErr_pos _)) (le_of_lt hp)
  have hlo : ∀ lo : ℝ, (∀ k, k < s.nmodels → lo ≤ c k) → lo ≤ (trial Real.exp s q c e R).1 := by
    intro lo h
    rw [trial_fst]
    calc lo = ∑ k in range s.nmodels,
          invErr (errSum Real.exp s q e R k)
            / (∑ j in range s.nmodels, invErr (errSum Real.exp s q e R j)) * lo := by
          rw [← sum_mul, hsum1, one_mul]
      _ ≤ _ := sum_le_sum (fun k hk =>
          mul_le_mul_of_nonneg_left (h k (mem_range.mp hk)) (hw0 k))
  have hhi : ∀ hi : ℝ, (∀ k, k < s.nmodels → c k ≤ hi) → (trial Real.exp s q c e R).1 ≤ hi := by
    intro hi h
    rw [trial_fst]
    calc _ ≤ ∑ k in range s.nmodels,
          invErr (errSum Real.exp s q e R k)
            / (∑ j in range s.nmodels, invErr (errSum Real.exp s q e R j)) * hi :=
          sum_le_sum (fun k hk => mul_le_mul_of_nonneg_left (h k (mem_range.mp hk)) (hw0 k))
      _ = hi := by rw [← sum_mul, hsum1, one_mul]
  refine ⟨hlo _ (fun k hk => inf'_le c (mem_range.mpr hk)),
    hhi _ (fun k hk => le_sup' c (mem_range.mpr hk)), fun v hv => ?_⟩
  exact le_antisymm (hhi v (fun k hk => le_of_eq (hv k hk)))
    (hlo v (fun k hk => le_of_eq (hv k hk).symm))

/-- Witness of C15: `farQueryState` and the query contenders `[10, 20]`. -/
theorem C15_convex_combination_witness :
    (range 2).inf' (nonempty_range_iff.mpr (by omega)) (query1020 ℝ)
        ≤ (trial Real.exp (farQueryState ℝ) (fun _ => 0) (query1020 ℝ) (-1) 0).1 ∧
    (trial Real.exp (farQueryState ℝ) (fun _ => 0) (query1020 ℝ) (-1) 0).1
        ≤ (range 2).sup' (nonempty_range_iff.mpr (by omega)) (query1020 ℝ) :=
  have h := C15_convex_combination (farQueryState ℝ) (fun _ => 0) (query1020 ℝ) (-1) 0
    (by decide) (fun _ _ => one_pos)
  ⟨h.1, h.2.1⟩

end GRNNgate

namespace GRNNgate
open Finset

/-! ## The scratch vector `errvals` -/

section Scratch

variable {α : Type} [LinearOrderedField α]

/-- A call of `trial` changes `errvals` only. -/
theorem trial_snd_eq (ex : α → α) (s : State α) (q c : Nat → α) (e R : Int) :
    (trial ex s q c e R).2 = { s with errvals := trialErrvals ex s q e R } := rfl

/-- A sequence of calls of `trial` changes `errvals` only. -/
theorem afterTrials_eq (ex : α → α) (s : State α) (calls : List (TrialArgs α)) :
    ∃ ev : Nat → α, afterTrials ex s calls = { s with errvals := ev } := by
  unfold afterTrials
  induction calls generalizing s with
  | nil => exact ⟨s.errvals, rfl⟩
  | cons a rest ih =>
    rw [List.foldl_cons]
    obtain ⟨ev, hev⟩ := ih (trial ex s a.gates a.contenders a.i_exclude a.n_exclude).2
    exact ⟨ev, by rw [hev]; rfl⟩

end Scratch

/-- C16: the value returned by `trial` does not depend on the content of
`errvals` at entry; hence a call returns the same value on the object as it is,
after a first call with the same arguments, and after any further calls of
`trial` in between; and a call of `trial` leaves `tset`, `sigma` and the three
sizes unchanged. -/
theorem C16_scratch_stateless (s : State ℝ) (q c : Nat → ℝ) (e R : Int) :
    (∀ ev : Nat → ℝ,
      (trial Real.exp { s with errvals := ev } q c e R).1 = (trial Real.exp s q c e R).1) ∧
    (∀ calls : List (TrialArgs ℝ),
      (trial Real.exp (afterTrials Real.exp (trial Real.exp s q c e R).2 calls) q c e R).1
        = (trial Real.exp s q c e R).1) ∧
    (trial Real.exp s q c e R).2.tset = s.tset ∧
    (trial Real.exp s q c e R).2.sigma = s.sigma ∧
    (trial Real.exp s q c e R).2.ncases = s.ncases ∧
    (trial Real.exp s q c e R).2.ngates = s.ngates ∧
    (trial Real.exp s q c e R).2.nmodels = s.nmodels := by
  refine ⟨fun ev => trial_fst_errvals Real.exp s ev q c e R, fun calls => ?_,
    rfl, rfl, rfl, rfl, rfl⟩
  obtain ⟨ev, hev⟩ := afterTrials_eq Real.exp (trial Real.exp s q c e R).2 calls
  rw [hev, trial_snd_eq]
  exact trial_fst_errvals Real.exp s ev q c e R

end GRNNgate

namespace GRNNgate
open Finset

/-! ## The constructor -/

section Construct

variable {α : Type} [LinearOrderedField α]

theorem zeroParams_apply (n : Nat) (p : Nat → α) (k : Nat) :
    zeroParams n p k = if k < n then 0 else p k := by
  unfold zeroParams
  rw [foldl_update_range (fun _ _ => (0 : α))]

/-- The sizes and the training set of the object after `criter`. -/
theorem criter_snd_fields (ex : α → α) (s : State α) (params : Nat → α) :
    (criter ex s params).2.ncases = s.ncases ∧ (criter ex s params).2.ngates = s.ngates ∧
    (criter ex s params).2.nmodels = s.nmodels ∧ (criter ex s params).2.tset = s.tset := by
  obtain ⟨ev, hev⟩ := criter_snd_eq ex s params
  rw [hev]
  exact ⟨rfl, rfl, rfl, rfl⟩

/-- With one contender `trial` returns the query's contender value. -/
theorem trial_single (ex : α → α) (s : State α) (q c : Nat → α) (e R : Int)
    (hM : s.nmodels = 1) : (trial ex s q c e R).1 = c 0 := by
  rw [trial_fst, hM, sum_range_one, sum_range_one, div_self (ne_of_gt (invErr_pos _)), one_mul]

end Construct

theorem criter_sigma_pos (s : State ℝ) (params : Nat → ℝ) (g : Nat) (hg : g < s.ngates) :
    0 < (criter Real.exp s params).2.sigma g := by
  rw [criter_snd_sigma]
  simp only [hg, if_true]
  exact Real.exp_pos _

/-- C12 fails on the code: with `n = 0`, with `n_gates = 0` and with `nmods = 0`
the constructor reports nothing and leaves an object of these sizes; with
`n = 0` and one gate it has invoked `glob_min` and `brentmin` and set a
positive bandwidth. -/
theorem C12_no_validation_counterexample :
    (construct Real.exp (idleMinimizers ℝ) (fun _ => 0) (fun _ => 0) (fun _ => 0) (fun _ => 0)
        0 1 1 (fun _ => 0) (fun _ => 0) (fun _ => 0)).obj.ncases = 0 ∧
    (construct Real.exp (idleMinimizers ℝ) (fun _ => 0) (fun _ => 0) (fun _ => 0) (fun _ => 0)
        0 1 1 (fun _ => 0) (fun _ => 0) (fun _ => 0)).calls
      = [MinCall.glob_min, MinCall.brentmin] ∧
    0 < (construct Real.exp (idleMinimizers ℝ) (fun _ => 0) (fun _ => 0) (fun _ => 0)
        (fun _ => 0) 0 1 1 (fun _ => 0) (fun _ => 0) (fun _ => 0)).obj.sigma 0 ∧
    (construct Real.exp (idleMinimizers ℝ) (fun _ => 0) (fun _ => 0) (fun _ => 0) (fun _ => 0)
        1 0 1 (fun _ => 0) (fun _ => 0) (fun _ => 0)).obj.ngates = 0 ∧
    (construct Real.exp (idleMinimizers ℝ) (fun _ => 0) (fun _ => 0) (fun _ => 0) (fun _ => 0)
        1 1 0 (fun _ => 0) (fun _ => 0) (fun _ => 0)).obj.nmodels = 0 := by
  refine ⟨?_, ?_, ?_, ?_, ?_⟩
  · unfold construct
    simp only [if_true]
    exact (criter_snd_fields _ _ _).1
  · unfold construct
    simp only [if_true]
  · unfold construct
    simp only [if_true]
    exact criter_sigma_pos _ _ 0 Nat.zero_lt_one
  · unfold construct
    simp only [zero_ne_one, if_false]
    split_ifs
    · exact (criter_snd_fields _ _ _).2.1
    · exact ((criter_snd_fields _ _ _).2.1).trans (criter_snd_fields _ _ _).2.1
  · unfold construct
    simp only [if_true]
    exact (criter_snd_fields _ _ _).2.2.1

/-- C12 as amended: the constructor tests none of its arguments; for all sizes,
zero included, it leaves an object with these sizes, the packed copy of the
training data and positive bandwidths `sigma[0..n_gates)`, set by its last
call of `criter`.  The test of the sizes is in `main`, which exits exactly when
`nsamps <= 0`, `nmodels <= 0`, `ntries <= 0` or `std < 0`. -/
theorem C12_constructor_total (mz : Minimizers ℝ) (rawT rawS rawE rawP : Nat → ℝ)
    (n n_gates nmods : Nat) (gates contenders trueval : Nat → ℝ)
    (nsamps nmodels ntries : Int) (std : ℝ) :
    (construct Real.exp mz rawT rawS rawE rawP n n_gates nmods gates contenders
        trueval).obj.ncases = n ∧
    (construct Real.exp mz rawT rawS rawE rawP n n_gates nmods gates contenders
        trueval).obj.ngates = n_gates ∧
    (construct Real.exp mz rawT rawS rawE rawP n n_gates nmods gates contenders
        trueval).obj.nmodels = nmods ∧
    (construct Real.exp mz rawT rawS rawE rawP n n_gates nmods gates contenders
        trueval).obj.tset = packTset n n_gates nmods gates contenders trueval rawT ∧
    (∀ g, g < n_gates →
      0 < (construct Real.exp mz rawT rawS rawE rawP n n_gates nmods gates contenders
        trueval).obj.sigma g) ∧
    (mainRejects nsamps nmodels ntries std = true
      ↔ nsamps ≤ 0 ∨ nmodels ≤ 0 ∨ ntries ≤ 0 ∨ std < 0) := by
  have hmain : mainRejects nsamps nmodels ntries std = true
      ↔ nsamps ≤ 0 ∨ nmodels ≤ 0 ∨ ntries ≤ 0 ∨ std < 0 := by
    unfold mainRejects
    simp only [Bool.or_eq_true, decide_eq_true_eq]
    tauto
  unfold construct
  simp only
  split_ifs with h1 h2
  · obtain ⟨a, b, c, d⟩ := criter_snd_fields Real.exp
      (⟨n, n_gates, nmods, packTset n n_gates nmods gates contenders trueval rawT, rawS, rawE⟩ :
        State ℝ)
      (Function.update rawP 0 (mz.brentmin 10 0 1e-5 1e-5
        (fun x => (univar_criter Real.exp ⟨n, n_gates, nmods,
          packTset n n_gates nmods gates contenders trueval rawT, rawS, rawE⟩ x).1)
        (mz.glob_min (-3) 3 15 0 0 (fun x => (univar_criter Real.exp ⟨n, n_gates, nmods,
          packTset n n_gates nmods gates contenders trueval rawT, rawS, rawE⟩ x).1)).1.1
        (mz.glob_min (-3) 3 15 0 0 (fun x => (univar_criter Real.exp ⟨n, n_gates, nmods,
          packTset n n_gates nmods gates contenders trueval rawT, rawS, rawE⟩ x).1)).2.1.1
        (mz.glob_min (-3) 3 15 0 0 (fun x => (univar_criter Real.exp ⟨n, n_gates, nmods,
          packTset n n_gates nmods gates contenders trueval rawT, rawS, rawE⟩ x).1)).2.2.1
        (mz.glob_min (-3) 3 15 0 0 (fun x => (univar_criter Real.exp ⟨n, n_gates, nmods,
          packTset n n_gates nmods gates contenders trueval rawT, rawS, rawE⟩ x).1)).2.1.2))
    exact ⟨a, b, c, d, fun g hg => criter_sigma_pos _ _ g hg, hmain⟩
  · obtain ⟨a, b, c, d⟩ := criter_snd_fields Real.exp
      (⟨n, n_gates, nmods, packTset n n_gates nmods gates contenders trueval rawT, rawS, rawE⟩ :
        State ℝ)
      (mz.powell 10 0 1e-4 (fun x => (criter Real.exp ⟨n, n_gates, nmods,
          packTset n n_gates nmods gates contenders trueval rawT, rawS, rawE⟩ x).1) n_gates
        (zeroParams n_gates rawP)
        (criter Real.exp ⟨n, n_gates, nmods,
          packTset n n_gates nmods gates contenders trueval rawT, rawS, rawE⟩
          (zeroParams n_gates rawP)).1)
    exact ⟨a, b, c, d, fun g hg => criter_sigma_pos _ _ g hg, hmain⟩
  · obtain ⟨a, b, c, d⟩ := criter_snd_fields Real.exp
      (⟨n, n_gates, nmods, packTset n n_gates nmods gates contenders trueval rawT, rawS, rawE⟩ :
        State ℝ) (zeroParams n_gates rawP)
    obtain ⟨a', b', c', d'⟩ := criter_snd_fields Real.exp
      (criter Real.exp (⟨n, n_gates, nmods,
        packTset n n_gates nmods gates contenders trueval rawT, rawS, rawE⟩ : State ℝ)
        (zeroParams n_gates rawP)).2 (zeroParams n_gates rawP)
    exact ⟨a'.trans a, b'.trans b, c'.trans c, d'.trans d,
      fun g hg => criter_sigma_pos _ _ g (by rw [b]; exact hg), hmain⟩

end GRNNgate

namespace GRNNgate
open Finset

/-- The value and the bandwidths computed by `criter` depend on the parameters
`params[0..ngates)` only. -/
theorem criter_congr_params {α : Type} [LinearOrderedField α] (ex : α → α) (s : State α)
    (p p' : Nat → α) (h : ∀ g, g < s.ngates → p g = p' g) :
    (criter ex s p).1 = (criter ex s p').1 := by
  rw [criter_fst, criter_fst]
  have hs : (fun g => if g < s.ngates then ex (min (max (p g) (-8)) 8) else s.sigma g)
      = fun g => if g < s.ngates then ex (min (max (p' g) (-8)) 8) else s.sigma g := by
    funext g
    by_cases hg : g < s.ngates
    · simp only [hg, if_true, h g hg]
    · simp only [hg, if_false]
  rw [hs]
  congr 1
  exact sum_congr rfl (fun g hg => by rw [h g (mem_range.mp hg)])

/-- C13: when `G > 1` and `criter` at the all-zero parameter vector is not
greater than `0`, the constructor invokes no minimiser, `powell` included, its
outcome is the same whatever the minimisers are, and the last call of `criter`
leaves the bandwidth `1` in every gate dimension. -/
theorem C13_fitter_shortcut (mz : Minimizers ℝ) (rawT rawS rawE rawP : Nat → ℝ)
    (n G M : Nat) (gates contenders trueval : Nat → ℝ) (hG : 1 < G)
    (herr : ¬ (criter Real.exp
        ⟨n, G, M, packTset n G M gates contenders trueval rawT, rawS, rawE⟩
        (fun _ => 0)).1 > 0) :
    (construct Real.exp mz rawT rawS rawE rawP n G M gates contenders trueval).calls = [] ∧
    (∀ g, g < G →
      (construct Real.exp mz rawT rawS rawE rawP n G M gates contenders trueval).obj.sigma g
        = 1) ∧
    (∀ mz' : Minimizers ℝ,
      construct Real.exp mz' rawT rawS rawE rawP n G M gates contenders trueval
        = construct Real.exp mz rawT rawS rawE rawP n G M gates contenders trueval) := by
  have hne : ¬ (G = 1) := by omega
  have hz : ∀ g, g < G → zeroParams G rawP g = (fun _ => (0 : ℝ)) g := by
    intro g hg
    rw [zeroParams_apply, if_pos hg]
  have herr' : ¬ (criter Real.exp
      ⟨n, G, M, packTset n G M gates contenders trueval rawT, rawS, rawE⟩
      (zeroParams G rawP)).1 > 0 := by
    rw [criter_congr_params Real.exp _ (zeroParams G rawP) (fun _ => 0) hz]
    exact herr
  have hform : ∀ mz' : Minimizers ℝ,
      construct Real.exp mz' rawT rawS rawE rawP n G M gates contenders trueval
        = ⟨(criter Real.exp (criter Real.exp
            ⟨n, G, M, packTset n G M gates contenders trueval rawT, rawS, rawE⟩
            (zeroParams G rawP)).2 (zeroParams G rawP)).2, []⟩ := by
    intro mz'
    unfold construct
    simp only [hne, if_false, herr']
  refine ⟨by rw [hform mz], fun g hg => ?_, fun mz' => by rw [hform mz', hform mz]⟩
  rw [hform mz]
  simp only
  have hG' : (criter Real.exp
      (⟨n, G, M, packTset n G M gates contenders trueval rawT, rawS, rawE⟩ : State ℝ)
      (zeroParams G rawP)).2.ngates = G := (criter_snd_fields _ _ _).2.1
  rw [criter_snd_sigma, hG']
  simp only [hg, if_true]
  rw [zeroParams_apply, if_pos hg]
  norm_num

/-- Witness of C13: two cases, two gates and one contender that equals the
true value in both cases, so that `criter` is `0` at the zero vector. -/
theorem C13_fitter_shortcut_witness :
    (construct Real.exp (idleMinimizers ℝ) (fun _ => 0) (fun _ => 0) (fun _ => 0) (fun _ => 0)
        2 2 1 (fun _ => 0) (fun _ => 0) (fun _ => 0)).calls = [] ∧
    (∀ g, g < 2 →
      (construct Real.exp (idleMinimizers ℝ) (fun _ => 0) (fun _ => 0) (fun _ => 0)
        (fun _ => 0) 2 2 1 (fun _ => 0) (fun _ => 0) (fun _ => 0)).obj.sigma g = 1) := by
  have h := C13_fitter_shortcut (idleMinimizers ℝ) (fun _ => 0) (fun _ => 0) (fun _ => 0)
    (fun _ => 0) 2 2 1 (fun _ => 0) (fun _ => 0) (fun _ => 0) (by norm_num) (by
      have hpack := packLoop_inv 2 1 (fun _ => (0 : ℝ)) (fun _ => 0) (fun _ => 0) (fun _ => 0) 2
      simp only at hpack
      obtain ⟨-, -, hc, ht⟩ := hpack
      rw [criter_fst]
      have hres : ∀ i ∈ range 2,
          (caseTarget (⟨2, 2, 1, packTset 2 2 1 (fun _ => (0 : ℝ)) (fun _ => 0) (fun _ => 0)
              (fun _ => 0), fun _ => 0, fun _ => 0⟩ : State ℝ) i
            - (trial Real.exp
                { (⟨2, 2, 1, packTset 2 2 1 (fun _ => (0 : ℝ)) (fun _ => 0) (fun _ => 0)
                    (fun _ => 0), fun _ => 0, fun _ => 0⟩ : State ℝ) with
                  sigma := fun g => if g < 2
                    then Real.exp (min (max ((fun _ => (0 : ℝ)) g) (-8)) 8) else 0 }
                (caseGate (⟨2, 2, 1, packTset 2 2 1 (fun _ => (0 : ℝ)) (fun _ => 0)
                    (fun _ => 0) (fun _ => 0), fun _ => 0, fun _ => 0⟩ : State ℝ) i)
                (caseContender (⟨2, 2, 1, packTset 2 2 1 (fun _ => (0 : ℝ)) (fun _ => 0)
                    (fun _ => 0) (fun _ => 0), fun _ => 0, fun _ => 0⟩ : State ℝ) i)
                (i : Int) 0).1) ^ 2 = 0 := by
        intro i hi
        have hi' := mem_range.mp hi
        rw [trial_single _ _ _ _ _ _ rfl]
        unfold caseTarget caseContender packTset
        simp only
        rw [ht i hi', add_zero, hc i hi' 0 Nat.zero_lt_one]
        norm_num
      simp only at hres ⊢
      rw [sum_congr rfl hres]
      norm_num)
  exact ⟨h.1, h.2.1⟩

end GRNNgate

namespace GRNNgate
open Finset Filter

/-! ## A bandwidth that grows without bound -/

/-- The distance with `sigma[g] = t` tends to the distance without gate `g`. -/
theorem dist_tendsto (G g : Nat) (σ q x : Nat → ℝ) :
    Tendsto (fun t : ℝ => ∑ g' in range G, ((q g' - x g') / Function.update σ g t g') ^ 2)
      atTop (nhds (∑ g' in range G, if g' = g then 0 else ((q g' - x g') / σ g') ^ 2)) := by
  refine tendsto_finset_sum _ (fun g' _ => ?_)
  by_cases h : g' = g
  · subst h
    simp only [Function.update_same, if_true]
    have h1 : Tendsto (fun t : ℝ => (q g' - x g') / t) atTop (nhds 0) :=
      tendsto_const_nhds.div_atTop tendsto_id
    have h2 := h1.pow 2
    simpa using h2
  · simp only [Function.update_noteq h, h, if_false]
    exact tendsto_const_nhds

theorem dist_ge (G g : Nat) (σ q x : Nat → ℝ) (t : ℝ) :
    (∑ g' in range G, if g' = g then 0 else ((q g' - x g') / σ g') ^ 2)
      ≤ ∑ g' in range G, ((q g' - x g') / Function.update σ g t g') ^ 2 := by
  refine sum_le_sum (fun g' _ => ?_)
  by_cases h : g' = g
  · subst h
    simp only [if_true]
    exact sq_nonneg _
  · simp only [Function.update_noteq h, h, if_false]
    exact le_refl _

theorem caseKernel_tendsto (s : State ℝ) (q : Nat → ℝ) (g i : Nat) :
    Tendsto (fun t : ℝ =>
        caseKernel Real.exp { s with sigma := Function.update s.sigma g t } q i)
      atTop (nhds (caseKernelWithout Real.exp s q g i)) :=
  (Real.continuous_exp.tendsto _).comp
    (dist_tendsto s.ngates g s.sigma q (caseGate s i)).neg

theorem caseKernel_le (s : State ℝ) (q : Nat → ℝ) (g i : Nat) (t : ℝ) :
    caseKernel Real.exp { s with sigma := Function.update s.sigma g t } q i
      ≤ caseKernelWithout Real.exp s q g i :=
  Real.exp_le_exp.mpr (neg_le_neg (dist_ge s.ngates g s.sigma q (caseGate s i) t))

theorem errSum_tendsto (s : State ℝ) (q : Nat → ℝ) (e R : Int) (g k : Nat) :
    Tendsto (fun t : ℝ =>
        errSum Real.exp { s with sigma := Function.update s.sigma g t } q e R k)
      atTop (nhds (errSumWithout Real.exp s q e R g k)) := by
  refine tendsto_finset_sum _ (fun i _ => ?_)
  by_cases h : caseSkipped s.ncases e R i = true
  · simp only [h, if_true]
    exact tendsto_const_nhds
  · simp only [h, if_false]
    exact (caseKernel_tendsto s q g i).mul_const _

theorem errSum_le (s : State ℝ) (q : Nat → ℝ) (e R : Int) (g k : Nat) (t : ℝ) :
    errSum Real.exp { s with sigma := Function.update s.sigma g t } q e R k
      ≤ errSumWithout Real.exp s q e R g k := by
  refine sum_le_sum (fun i _ => ?_)
  by_cases h : caseSkipped s.ncases e R i = true
  · simp only [h, if_true]
    exact le_refl _
  · simp only [h, if_false]
    exact mul_le_mul_of_nonneg_right (caseKernel_le s q g i t) (sq_nonneg _)

/-- The conversion to an unnormalised weight passes to a limit that is
approached from below. -/
theorem invErr_tendsto {f : ℝ → ℝ} {L : ℝ} (hle : ∀ t, f t ≤ L)
    (hf : Tendsto f atTop (nhds L)) :
    Tendsto (fun t => invErr (f t)) atTop (nhds (invErr L)) := by
  by_cases hL : L > 1e-30
  · have hL0 : L ≠ 0 := ne_of_gt (lt_trans (by norm_num) hL)
    have hev : ∀ᶠ t in atTop, (1e-30 : ℝ) < f t := hf.eventually (lt_mem_nhds hL)
    have hlim : Tendsto (fun t => 1 / f t) atTop (nhds (1 / L)) :=
      tendsto_const_nhds.div hf hL0
    have hinvL : invErr L = 1 / L := by
      unfold invErr
      rw [if_pos hL]
    rw [hinvL]
    refine hlim.congr' ?_
    filter_upwards [hev] with t ht
    unfold invErr
    rw [if_pos ht]
  · have hconst : (fun t => invErr (f t)) = fun _ => (1e30 : ℝ) := by
      funext t
      unfold invErr
      rw [if_neg (fun h => hL (lt_of_lt_of_le h (hle t)))]
    have hinvL : invErr L = 1e30 := by
      unfold invErr
      rw [if_neg hL]
    rw [hconst, hinvL]
    exact tendsto_const_nhds

/-- The value returned by `trial` tends to the value computed without gate `g`. -/
theorem trial_tendsto (s : State ℝ) (q c : Nat → ℝ) (e R : Int) (g : Nat) :
    Tendsto (fun t : ℝ =>
        (trial Real.exp { s with sigma := Function.update s.sigma g t } q c e R).1)
      atTop
      (nhds (∑ k in range s.nmodels,
        invErr (errSumWithout Real.exp s q e R g k)
          / (∑ j in range s.nmodels, invErr (errSumWithout Real.exp s q e R g j)) * c k)) := by
  have hfun : (fun t : ℝ =>
        (trial Real.exp { s with sigma := Function.update s.sigma g t } q c e R).1)
      = fun t : ℝ => ∑ k in range s.nmodels,
          invErr (errSum Real.exp { s with sigma := Function.update s.sigma g t } q e R k)
            / (∑ j in range s.nmodels,
                invErr (errSum Real.exp { s with sigma := Function.update s.sigma g t }
                  q e R j)) * c k := by
    funext t
    rw [trial_fst]
  rw [hfun]
  have hinv : ∀ k, Tendsto (fun t : ℝ =>
        invErr (errSum Real.exp { s with sigma := Function.update s.sigma g t } q e R k))
      atTop (nhds (invErr (errSumWithout Real.exp s q e R g k))) :=
    fun k => invErr_tendsto (errSum_le s q e R g k) (errSum_tendsto s q e R g k)
  refine tendsto_finset_sum _ (fun k hk => ?_)
  have hM : 0 < s.nmodels := lt_of_le_of_lt (Nat.zero_le k) (mem_range.mp hk)
  have hpos : 0 < ∑ j in range s.nmodels, invErr (errSumWithout Real.exp s q e R g j) :=
    sum_pos (fun j _ => invErr_pos _) (nonempty_range_iff.mpr (by omega))
  exact ((hinv k).div (tendsto_finset_sum _ (fun j _ => hinv j)) (ne_of_gt hpos)).mul_const _

/-- Without gate `g`, the accumulated error does not see coordinate `g` of the
query. -/
theorem errSumWithout_congr (s : State ℝ) (q q' : Nat → ℝ) (e R : Int) (g k : Nat)
    (hq : ∀ g', g' < s.ngates → g' ≠ g → q' g' = q g') :
    errSumWithout Real.exp s q' e R g k = errSumWithout Real.exp s q e R g k := by
  unfold errSumWithout caseKernelWithout
  refine sum_congr rfl (fun i _ => ?_)
  have : (∑ g' in range s.ngates,
        if g' = g then 0 else ((q' g' - caseGate s i g') / s.sigma g') ^ 2)
      = ∑ g' in range s.ngates,
        if g' = g then 0 else ((q g' - caseGate s i g') / s.sigma g') ^ 2 := by
    refine sum_congr rfl (fun g' hg' => ?_)
    by_cases h : g' = g
    · simp only [h, if_true]
    · simp only [h, if_false, hq g' (mem_range.mp hg') h]
  rw [this]

/-- C11: for every gate dimension `g`, every two queries that differ in
coordinate `g` only, every query contenders and exclusion arguments, with the
other bandwidths fixed and positive, the difference of the two values returned
by `trial` tends to `0` as `sigma[g]` tends to `+infinity`. -/
theorem C11_bandwidth_infinity (s : State ℝ) (q q' c : Nat → ℝ) (e R : Int) (g : Nat)
    (_hg : g < s.ngates) (hq : ∀ g', g' < s.ngates → g' ≠ g → q' g' = q g')
    (_hσ : ∀ g', g' < s.ngates → g' ≠ g → 0 < s.sigma g') :
    Tendsto (fun t : ℝ =>
        (trial Real.exp { s with sigma := Function.update s.sigma g t } q c e R).1
          - (trial Real.exp { s with sigma := Function.update s.sigma g t } q' c e R).1)
      atTop (nhds 0) := by
  have h1 := trial_tendsto s q c e R g
  have h2 := trial_tendsto s q' c e R g
  have heq : ∀ k, errSumWithout Real.exp s q' e R g k = errSumWithout Real.exp s q e R g k :=
    fun k => errSumWithout_congr s q q' e R g k hq
  simp only [heq] at h2
  have h3 := h1.sub h2
  rw [sub_self] at h3
  exact h3

/-- Witness of C11: two gates with unit bandwidths, and two queries that differ
in gate `0`. -/
theorem C11_bandwidth_infinity_witness :
    Tendsto (fun t : ℝ =>
        (trial Real.exp
            { (⟨2, 2, 2, fun k => k, fun _ => 1, fun _ => 0⟩ : State ℝ) with
              sigma := Function.update (fun _ => 1) 0 t }
            (fun _ => 0) (query1020 ℝ) 0 0).1
          - (trial Real.exp
            { (⟨2, 2, 2, fun k => k, fun _ => 1, fun _ => 0⟩ : State ℝ) with
              sigma := Function.update (fun _ => 1) 0 t }
            (Function.update (fun _ => 0) 0 5) (query1020 ℝ) 0 0).1)
      atTop (nhds 0) :=
  C11_bandwidth_infinity ⟨2, 2, 2, fun k => k, fun _ => 1, fun _ => 0⟩ (fun _ => 0)
    (Function.update (fun _ => 0) 0 5) (query1020 ℝ) 0 0 0 (by decide)
    (fun g' _ h => Function.update_noteq h _ _) (fun _ _ _ => one_pos)

end GRNNgate
